import Mathlib

/-!
Verification development for the TalentXAI youth-career-exploration app.

The repository consists of three Python modules: `entxp.py` (day-in-the-life
simulator and Spark Discovery Hub, including the shared JSON-recovery helper
`safe_json_from_model`), `voice_pipeline.py` (transcription, agent dialogue and
speech synthesis) and `app.py` (shell and navigation).  This file gives a
shallow embedding of the data model and of the operations the specification
claims are about, and proves or refutes each claim.

Modelling conventions:
- Text is modelled as `List Char`; Python `bytes.decode("utf-8")` is modelled
  as the identity on decoded character sequences.
- The Python `json` standard library (`json.loads` / `json.dumps`) is external
  to the repository; it is embedded here by `jsonParse` / `dumps` over the
  `Json` value type.  JSON number literals are modelled as arbitrary-precision
  integers; fraction/exponent (float) literals are out of scope, as is the
  `ensure_ascii` escaping of exotic string characters (the cleanliness
  predicate `cleanJson` marks the values whose serialisation needs no escapes).
- Remote calls (Bedrock, Transcribe, S3) are modelled by passing their
  observable outcome as a parameter (`Option`/`Except`), and a `Bool` records
  whether the remote path was invoked.
- Rationals stand in for the float arithmetic of the WAV duration computation.
-/

/-! ## Characters and character-list utilities -/

/-- The double-quote character, written by code point to keep string literals plain. -/
def quoteChar : Char := Char.ofNat 34

/-- The backslash character. -/
def backslashChar : Char := Char.ofNat 92

/-- The opening curly brace. -/
def lbraceChar : Char := Char.ofNat 123

/-- The closing curly brace. -/
def rbraceChar : Char := Char.ofNat 125

/-- The backtick character used by markdown code fences. -/
def backtickChar : Char := Char.ofNat 96

/-- Whitespace accepted by the JSON grammar (RFC 8259, as in `json.loads`). -/
def isJsonWs (c : Char) : Bool := c = ' ' || c = '\t' || c = '\n' || c = '\r'

/-- ASCII whitespace stripped by Python `str.strip()` (adds vertical tab and form feed). -/
def isPyWs (c : Char) : Bool := isJsonWs c || c = Char.ofNat 11 || c = Char.ofNat 12

/-- Drop leading JSON whitespace. -/
def skipWs : List Char → List Char
  | [] => []
  | c :: cs => if isJsonWs c then skipWs cs else c :: cs

/-- Python `str.strip()` on a character list. -/
def pyStrip (l : List Char) : List Char :=
  ((l.dropWhile isPyWs).reverse.dropWhile isPyWs).reverse

/-- Python `str.strip()` on a `String`. -/
def pyStripStr (s : String) : String := String.mk (pyStrip s.data)

/-- Does `needle` occur as a leading segment of `hay`? -/
def startsWithChars : List Char → List Char → Bool
  | [], _ => true
  | _ :: _, [] => false
  | n :: ns, h :: hs => n = h && startsWithChars ns hs

/-- Does `needle` occur as a contiguous segment anywhere in the list? -/
def hasSub (needle : List Char) : List Char → Bool
  | [] => needle.isEmpty
  | h :: t => startsWithChars needle (h :: t) || hasSub needle t

/-- Index of the first occurrence of a character, as in Python `str.find`. -/
def firstIdx : List Char → Char → Option Nat
  | [], _ => none
  | c :: cs, o => if c = o then some 0 else (firstIdx cs o).map (· + 1)

/-- Python `text.split("\n")`: split on newline characters (accumulator reversed per part). -/
def splitNlAux : List Char → List Char → List (List Char)
  | [], acc => [acc.reverse]
  | c :: cs, acc => if c = '\n' then acc.reverse :: splitNlAux cs [] else splitNlAux cs (c :: acc)

/-- Python `raw.split`, applied to the three-backtick fence separator, left to right,
non-overlapping. -/
def splitTicksAux : List Char → List Char → List (List Char)
  | [], acc => [acc.reverse]
  | [c], acc => [(c :: acc).reverse]
  | [c1, c2], acc => [(c2 :: c1 :: acc).reverse]
  | c1 :: c2 :: c3 :: cs, acc =>
    if c1 = backtickChar && c2 = backtickChar && c3 = backtickChar then
      acc.reverse :: splitTicksAux cs []
    else splitTicksAux (c2 :: c3 :: cs) (c1 :: acc)

/-- All fence-separated parts of a string. -/
def splitTicks (l : List Char) : List (List Char) := splitTicksAux l []

/-! ## The JSON value model and `json.loads` (embedded as `jsonParse`) -/

/-- JSON values as produced by `json.loads`: objects are association lists in
insertion order, numbers are modelled as integers. -/
inductive Json where
  | null : Json
  | bool (b : Bool) : Json
  | num (n : Int) : Json
  | str (s : List Char) : Json
  | arr (xs : List Json) : Json
  | obj (ms : List (List Char × Json)) : Json

/-- Greedily consume decimal digits, accumulating their value. -/
def parseDigitsAux (acc : Nat) : List Char → Nat × List Char
  | [] => (acc, [])
  | c :: cs => if c.isDigit then parseDigitsAux (acc * 10 + (c.toNat - 48)) cs else (acc, c :: cs)

/-- Decode a single-character string escape of the JSON grammar (the `\uXXXX`
form is out of scope; none of the modelled texts uses it). -/
def escDecode (e : Char) : Option Char :=
  if e = quoteChar then some quoteChar
  else if e = backslashChar then some backslashChar
  else if e = '/' then some '/'
  else if e = 'n' then some '\n'
  else if e = 't' then some '\t'
  else if e = 'r' then some '\r'
  else if e = 'b' then some (Char.ofNat 8)
  else if e = 'f' then some (Char.ofNat 12)
  else none

mutual
/-- Parse the body of a JSON string after the opening quote, decoding the
single-character escapes; raw control characters are rejected (strict mode),
matching `json.loads`. -/
def parseStringBody : List Char → Option (List Char × List Char)
  | [] => none
  | c :: cs =>
    if c = quoteChar then some ([], cs)
    else if c = backslashChar then parseEscape cs
    else if c.toNat < 32 then none
    else (parseStringBody cs).map (fun p => (c :: p.1, p.2))

/-- Parse the character after a backslash inside a JSON string. -/
def parseEscape : List Char → Option (List Char × List Char)
  | [] => none
  | e :: cs =>
    match escDecode e with
    | none => none
    | some d => (parseStringBody cs).map (fun p => (d :: p.1, p.2))
end

/-- Parse an object key (a JSON string) followed by a colon. -/
def parseKeyColon (cs : List Char) : Option (List Char × List Char) :=
  match skipWs cs with
  | [] => none
  | c :: r =>
    if c = quoteChar then
      match parseStringBody r with
      | none => none
      | some (k, r1) =>
        match skipWs r1 with
        | [] => none
        | c2 :: r2 => if c2 = ':' then some (k, r2) else none
    else none

mutual
/-- Recursive-descent JSON value parser; the fuel argument only bounds nesting
and is always supplied generously by `jsonParse`. -/
def parseValue : Nat → List Char → Option (Json × List Char)
  | 0, _ => none
  | Nat.succ fuel, cs =>
    match skipWs cs with
    | [] => none
    | c :: rest =>
      if c = quoteChar then (parseStringBody rest).map (fun p => (Json.str p.1, p.2))
      else if c = 'n' then
        match rest with
        | 'u' :: 'l' :: 'l' :: r => some (Json.null, r)
        | _ => none
      else if c = 't' then
        match rest with
        | 'r' :: 'u' :: 'e' :: r => some (Json.bool true, r)
        | _ => none
      else if c = 'f' then
        match rest with
        | 'a' :: 'l' :: 's' :: 'e' :: r => some (Json.bool false, r)
        | _ => none
      else if c = '[' then
        match skipWs rest with
        | [] => none
        | b :: bs =>
          if b = ']' then some (Json.arr [], bs)
          else
            match parseValue fuel (b :: bs) with
            | none => none
            | some (v, r1) =>
              match parseArrItems fuel r1 with
              | none => none
              | some (vs, r2) => some (Json.arr (v :: vs), r2)
      else if c = lbraceChar then
        match skipWs rest with
        | [] => none
        | b :: bs =>
          if b = rbraceChar then some (Json.obj [], bs)
          else
            match parseKeyColon (b :: bs) with
            | none => none
            | some (k, r1) =>
              match parseValue fuel r1 with
              | none => none
              | some (v, r2) =>
                match parseObjItems fuel r2 with
                | none => none
                | some (ms, r3) => some (Json.obj ((k, v) :: ms), r3)
      else if c = '-' then
        match rest with
        | [] => none
        | d :: ds =>
          if d.isDigit then
            let p := parseDigitsAux (d.toNat - 48) ds
            some (Json.num (-(p.1 : Int)), p.2)
          else none
      else if c.isDigit then
        let p := parseDigitsAux (c.toNat - 48) rest
        some (Json.num (p.1 : Int), p.2)
      else none

/-- After the first array element: a comma-separated tail up to the closing bracket. -/
def parseArrItems : Nat → List Char → Option (List Json × List Char)
  | 0, _ => none
  | Nat.succ fuel, cs =>
    match skipWs cs with
    | [] => none
    | c :: r =>
      if c = ']' then some ([], r)
      else if c = ',' then
        match parseValue fuel r with
        | none => none
        | some (v, r1) =>
          match parseArrItems fuel r1 with
          | none => none
          | some (vs, r2) => some (v :: vs, r2)
      else none

/-- After the first object member: a comma-separated tail up to the closing brace. -/
def parseObjItems : Nat → List Char → Option (List (List Char × Json) × List Char)
  | 0, _ => none
  | Nat.succ fuel, cs =>
    match skipWs cs with
    | [] => none
    | c :: r =>
      if c = rbraceChar then some ([], r)
      else if c = ',' then
        match parseKeyColon r with
        | none => none
        | some (k, r1) =>
          match parseValue fuel r1 with
          | none => none
          | some (v, r2) =>
            match parseObjItems fuel r2 with
            | none => none
            | some (ms, r3) => some ((k, v) :: ms, r3)
      else none
end

/-- `json.loads`: parse a complete JSON document, allowing surrounding whitespace only. -/
def jsonParse (cs : List Char) : Option Json :=
  match parseValue (cs.length + 1) cs with
  | none => none
  | some (v, r) => if skipWs r = [] then some v else none

/-! ## `json.dumps` (embedded as `dumps`) and structural measures -/

/-- The decimal digit character for a value below ten. -/
def digitChar (d : Nat) : Char := Char.ofNat (48 + d)

/-- Decimal digits of a natural number, most significant first; fuel-driven so the
definition evaluates by kernel reduction. -/
def natToCharsAux : Nat → Nat → List Char
  | 0, _ => []
  | Nat.succ fuel, n => if n < 10 then [digitChar n] else natToCharsAux fuel (n / 10) ++ [digitChar (n % 10)]

/-- Decimal representation of a natural number. -/
def natToChars (n : Nat) : List Char := natToCharsAux (n + 1) n

/-- Decimal representation of an integer, as printed by `json.dumps`. -/
def intChars (i : Int) : List Char :=
  if i < 0 then '-' :: natToChars i.natAbs else natToChars i.natAbs

mutual
/-- `json.dumps` with its default separators `", "` and `": "`; string escaping is
not modelled (see `cleanJson`). -/
def dumps : Json → List Char
  | .null => "null".data
  | .bool true => "true".data
  | .bool false => "false".data
  | .num i => intChars i
  | .str s => quoteChar :: s ++ [quoteChar]
  | .arr xs => '[' :: dumpsElems xs ++ [']']
  | .obj ms => lbraceChar :: dumpsMembers ms ++ [rbraceChar]

/-- Comma-separated serialisation of array elements. -/
def dumpsElems : List Json → List Char
  | [] => []
  | x :: xs => dumps x ++ dumpsTail xs

/-- The `", "`-prefixed tail of serialised array elements. -/
def dumpsTail : List Json → List Char
  | [] => []
  | x :: xs => ',' :: ' ' :: dumps x ++ dumpsTail xs

/-- Comma-separated serialisation of object members. -/
def dumpsMembers : List (List Char × Json) → List Char
  | [] => []
  | (k, v) :: ms => quoteChar :: k ++ quoteChar :: ':' :: ' ' :: dumps v ++ dumpsMemTail ms

/-- The `", "`-prefixed tail of serialised object members. -/
def dumpsMemTail : List (List Char × Json) → List Char
  | [] => []
  | (k, v) :: ms => ',' :: ' ' :: quoteChar :: k ++ quoteChar :: ':' :: ' ' :: dumps v ++ dumpsMemTail ms
end

mutual
/-- A structural size measure used as parser fuel accounting. -/
def jsize : Json → Nat
  | .null => 1
  | .bool _ => 1
  | .num _ => 1
  | .str _ => 1
  | .arr [] => 1
  | .arr (x :: xs) => 1 + jsize x + isize xs
  | .obj [] => 1
  | .obj (m :: ms) => 1 + jsize m.2 + msize ms

/-- Size of an array-element tail. -/
def isize : List Json → Nat
  | [] => 1
  | x :: xs => 1 + jsize x + isize xs

/-- Size of an object-member tail. -/
def msize : List (List Char × Json) → Nat
  | [] => 1
  | m :: ms => 1 + jsize m.2 + msize ms
end

/-- A character whose serialisation inside a JSON string needs no escaping, and
which stays clear of the backtick fences of `safe_json_from_model`. -/
def cleanChar (c : Char) : Bool :=
  32 ≤ c.toNat && c.toNat ≤ 126 && c ≠ quoteChar && c ≠ backslashChar && c ≠ backtickChar

mutual
/-- Values whose strings contain only plain printable characters, so `dumps`
matches `json.dumps` exactly. -/
def cleanJson : Json → Bool
  | .null => true
  | .bool _ => true
  | .num _ => true
  | .str s => s.all cleanChar
  | .arr xs => cleanElems xs
  | .obj ms => cleanMembers ms

/-- Cleanliness of all array elements. -/
def cleanElems : List Json → Bool
  | [] => true
  | x :: xs => cleanJson x && cleanElems xs

/-- Cleanliness of all object members. -/
def cleanMembers : List (List Char × Json) → Bool
  | [] => true
  | m :: ms => m.1.all cleanChar && cleanJson m.2 && cleanMembers ms
end

/-- Arrays and objects: the payload shapes the fence strategy recognises. -/
def isContainer : Json → Bool
  | .arr _ => true
  | .obj _ => true
  | _ => false

/-- A continuation that does not start with a digit, so greedy number parsing
stops exactly at the serialised value boundary. -/
def restOkB : List Char → Bool
  | [] => true
  | c :: _ => !c.isDigit

/-- A payload wrapped in a plain triple-backtick fenced block. -/
def tickWrap (d : List Char) : List Char :=
  backtickChar :: backtickChar :: backtickChar :: '\n' ::
    (d ++ '\n' :: backtickChar :: backtickChar :: backtickChar :: [])

/-! ## `safe_json_from_model` (entxp.py, lines 49-88) -/

/-- One fence-split part of strategy 2: strip it, require a leading bracket, try to parse. -/
def fenceParts : List (List Char) → Option Json
  | [] => none
  | p :: ps =>
    match pyStrip p with
    | [] => fenceParts ps
    | c :: cand =>
      if c = '[' || c = lbraceChar then
        match jsonParse (c :: cand) with
        | some v => some v
        | none => fenceParts ps
      else fenceParts ps

/-- Strategy 2 of `safe_json_from_model`: only runs when a triple-backtick fence occurs. -/
def fenceScan (raw : List Char) : Option Json :=
  let parts := splitTicks raw
  if parts.length = 1 then none else fenceParts parts

/-- Strategy 3 inner loop: scan forward (`candRev` holds the candidate so far,
reversed; `idx` is the absolute index of the head of `rest`), trying to parse the
candidate at every occurrence of the closing character, in increasing order. -/
def scanFrom (close : Char) (candRev : List Char) (idx : Nat) : List Char → Option (Json × Nat)
  | [] => none
  | c :: cs =>
    if c = close then
      match jsonParse (c :: candRev).reverse with
      | some v => some (v, idx)
      | none => scanFrom close (c :: candRev) (idx + 1) cs
    else scanFrom close (c :: candRev) (idx + 1) cs

/-- Strategy 3 for one bracket pair: from the first occurrence of the opening
character, try every closing-character position in increasing order. -/
def scanPair (raw : List Char) (o close : Char) : Option (Json × Nat) :=
  match firstIdx raw o with
  | none => none
  | some s => scanFrom close [o] (s + 1) (raw.drop (s + 1))

/-- The shortest-match property of one bracket-pair scan: the value `v` parses from the
substring running from the first occurrence of the opening character to the closing
character at position `j`, and no closing-character position strictly between them
yields a parsing candidate — so `j` is the least close position that parses, since the
scan tries them in increasing order. -/
def scanShortestSpec (raw : List Char) (o close : Char) (v : Json) (j : Nat) : Prop :=
  ∃ s, firstIdx raw o = some s ∧ s < j ∧ raw[j]? = some close ∧
    jsonParse ((raw.drop s).take (j - s + 1)) = some v ∧
    ∀ k, s < k → k < j → raw[k]? = some close →
      jsonParse ((raw.drop s).take (k - s + 1)) = none

/-- `safe_json_from_model` (entxp.py): strip; direct parse; fenced blocks; then the
bracket scan with the square pair before the curly pair; otherwise the extraction error. -/
def safe_json_from_model (raw0 : List Char) : Except (List Char) Json :=
  let raw := pyStrip raw0
  match jsonParse raw with
  | some v => Except.ok v
  | none =>
    match fenceScan raw with
    | some v => Except.ok v
    | none =>
      match scanPair raw '[' ']' with
      | some (v, _) => Except.ok v
      | none =>
        match scanPair raw lbraceChar rbraceChar with
        | some (v, _) => Except.ok v
        | none => Except.error "Could not extract JSON from model output.".data

/-! ## Voice pipeline (voice_pipeline.py) -/

/-- `get_wav_duration_seconds` on the parsed WAV header: `none` models a file whose
header cannot be read (`wave.Error`); a zero frame rate models the resulting
`ZeroDivisionError`; otherwise frames divided by rate, as an exact rational. -/
def get_wav_duration_seconds (hdr : Option (Nat × Nat)) : Except String Rat :=
  match hdr with
  | none => Except.error "wave.Error: unreadable header"
  | some (frames, rate) =>
    if rate = 0 then Except.error "ZeroDivisionError: division by zero"
    else Except.ok ((frames : Rat) / (rate : Rat))

/-- The `try` block of `transcribe_audio` (voice_pipeline.py lines 46-51): compute the
duration, and raise `ValueError` when it is under half a second. -/
def duration_check (hdr : Option (Nat × Nat)) : Except String Rat :=
  match get_wav_duration_seconds hdr with
  | Except.error e => Except.error e
  | Except.ok d =>
    if d < 1 / 2 then Except.error "ValueError: Audio too short. Please record at least 1-2 seconds."
    else Except.ok d

/-- Outcome of the pre-network phase of `transcribe_audio`: either the short-clip
rejection the specification describes, or proceeding to the S3 upload with the
duration value the guard left behind. -/
inductive TranscribeStep where
  | abortedShort (msg : List Char) : TranscribeStep
  | uploading (duration : Option Rat) : TranscribeStep

/-- The guard stage of `transcribe_audio` as written: the whole `try` block —
including the short-clip `ValueError` it raises itself — is wrapped by
`except Exception`, which sets the duration to `None` and falls through, so the
function always proceeds to `upload_to_s3`. -/
def transcribe_audio_guard (hdr : Option (Nat × Nat)) : TranscribeStep :=
  match duration_check hdr with
  | Except.ok d => TranscribeStep.uploading (some d)
  | Except.error _ => TranscribeStep.uploading none

/-- Module-level names bound anywhere in voice_pipeline.py (imports, configuration
constants, clients, function definitions). -/
def voice_pipeline_module_names : List String :=
  ["os", "uuid", "wave", "json", "time", "Tuple", "boto3",
   "S3_BUCKET", "REGION", "BEDROCK_REGION",
   "transcribe", "polly", "s3", "bedrock_agent",
   "get_wav_duration_seconds", "upload_to_s3", "transcribe_audio",
   "call_master_agent", "synthesize_speech", "handle_voice_interaction"]

/-- Names in scope when line 20 of voice_pipeline.py (the first client construction)
executes: the imports and the three configuration constants above it. -/
def names_in_scope_at_clients : List String :=
  ["os", "uuid", "wave", "json", "time", "Tuple", "boto3",
   "S3_BUCKET", "REGION", "BEDROCK_REGION"]

/-- Python name resolution at module scope: a name not bound in the environment
raises `NameError`. -/
def resolveName (env : List String) (n : String) : Except String String :=
  if n ∈ env then Except.ok n else Except.error ("NameError: name " ++ n ++ " is not defined")

/-- Evaluation of the client-construction block (voice_pipeline.py lines 20-23),
reading the region name each `boto3.client` call mentions. -/
def voice_clients_init : Except String Unit := do
  _ ← resolveName names_in_scope_at_clients "AWS_REGION"
  _ ← resolveName names_in_scope_at_clients "AWS_REGION"
  _ ← resolveName names_in_scope_at_clients "AWS_REGION"
  _ ← resolveName names_in_scope_at_clients "BEDROCK_REGION"
  pure ()

/-- One event of the Bedrock agent completion stream: a dict without a `chunk`,
a chunk without `bytes`, or chunk bytes (modelled post-UTF-8-decoding). -/
inductive AgentEvent where
  | noChunk : AgentEvent
  | chunkNoBytes : AgentEvent
  | chunkBytes (bs : List Char) : AgentEvent

/-- The concatenation loop of `call_master_agent`: append the bytes of every chunk. -/
def concatChunks (events : List AgentEvent) : List Char :=
  events.foldl (fun acc e => match e with | .chunkBytes bs => acc ++ bs | _ => acc) []

/-- `call_master_agent` (voice_pipeline.py lines 88-123): empty input short-circuits
to a repetition prompt without invoking the agent; otherwise the stream is
concatenated, stripped, and an empty result is replaced by the generic apology.
The boolean records whether the remote agent was invoked. -/
def call_master_agent (user_text : List Char) (events : List AgentEvent) : List Char × Bool :=
  if user_text = [] then
    ("I didn\x27t catch that. Could you please repeat your answer?".data, false)
  else
    let t := pyStrip (concatChunks events)
    (if t = [] then "Sorry, I couldn\x27t generate a reply this time.".data else t, true)

/-! ## ENT.XP session state (entxp.py) -/

/-- The per-session ENT.XP state: stage, generated role options, the selected role,
and the memoised simulations keyed by role name. -/
structure EntState where
  ent_stage : String
  ent_role_options : List Json
  ent_selected_role : Option Json
  ent_simulations : List (String × Json)

/-- The fetch-or-cache step of `ent_show_simulation` (entxp.py lines 480-486): on a
cache miss generate and store the simulation, on a hit return the stored value.
The boolean records whether the generator (the model call) ran. -/
def ent_show_simulation_fetch (gen : String → String → Json) (st : EntState)
    (role_name fit_reason : String) : EntState × Json × Bool :=
  match st.ent_simulations.lookup role_name with
  | some sim => (st, sim, false)
  | none =>
    let sim := gen role_name fit_reason
    ({ st with ent_simulations := st.ent_simulations ++ [(role_name, sim)] }, sim, true)

/-- The start-over handler (entxp.py lines 607-611): clear role options, selected
role and the simulations map, and return to the landing stage. -/
def ent_start_over (st : EntState) : EntState :=
  { st with
    ent_role_options := []
    ent_selected_role := none
    ent_simulations := []
    ent_stage := "landing" }

/-! ## Role-option generation fallback (entxp.py lines 115-168) -/

/-- The fixed three-role fallback list of `ent_generate_role_options_from_ai`. -/
def ent_fallback_roles : Json :=
  Json.arr
    [Json.obj
      [("role_name".data, Json.str "Assistant Creative Producer".data),
       ("one_sentence_hook".data, Json.str "You turn ideas and chaos into an actual show.".data),
       ("why_it_fits_this_person".data,
        Json.str "You enjoy planning, working with others, and being near the action.".data)],
     Json.obj
      [("role_name".data, Json.str "Community Content Curator".data),
       ("one_sentence_hook".data, Json.str "You find the best stories and help them shine.".data),
       ("why_it_fits_this_person".data,
        Json.str "You like social media, picking good content, and boosting others’ voices.".data)],
     Json.obj
      [("role_name".data, Json.str "Studio Session Coordinator".data),
       ("one_sentence_hook".data, Json.str "You keep studio days running smooth and on time.".data),
       ("why_it_fits_this_person".data,
        Json.str "You’re organized and don’t mind juggling multiple tasks.".data)]]

/-- `ent_generate_role_options_from_ai`: the argument is the raw model reply, or
`none` when the Bedrock call raised.  A reply that parses to a non-empty JSON list
is returned as is; every other outcome falls back to the fixed role list. -/
def ent_generate_role_options_from_ai (call_result : Option (List Char)) : Json :=
  match call_result with
  | none => ent_fallback_roles
  | some raw =>
    match safe_json_from_model raw with
    | Except.error _ => ent_fallback_roles
    | Except.ok (Json.arr (x :: xs)) => Json.arr (x :: xs)
    | Except.ok _ => ent_fallback_roles

/-- A role entry with the three expected keys bound to non-empty strings. -/
def roleEntryOk (j : Json) : Bool :=
  match j with
  | Json.obj fields =>
    (match fields.lookup "role_name".data with
     | some (Json.str (_ :: _)) => true
     | _ => false) &&
    (match fields.lookup "one_sentence_hook".data with
     | some (Json.str (_ :: _)) => true
     | _ => false) &&
    (match fields.lookup "why_it_fits_this_person".data with
     | some (Json.str (_ :: _)) => true
     | _ => false)
  | _ => false

/-- The fallback shape check: exactly three entries, every field non-empty. -/
def fallbackRolesOk : Bool :=
  match ent_fallback_roles with
  | Json.arr xs => xs.length == 3 && xs.all roleEntryOk
  | _ => false

/-! ## Identity Lab fallback (entxp.py lines 722-771) -/

/-- The six comfort-zone sliders of the Identity Lab, each an integer in 0-10 in
the UI; the fallback reads `chaos_structure` and `solo_team`. -/
structure IdentitySliders where
  chaos_structure : Int
  solo_team : Int
  expression_observation : Int
  logic_emotion : Int
  people_backstage : Int
  bigpicture_detail : Int

/-- A Spark archetype card. -/
structure SparkArchetype where
  name : String
  tagline : String
  description : String

/-- The creative-environment section of an identity result. -/
structure CreativeEnvironment where
  summary : String
  example_spaces : List String

/-- A suggested role of an identity result. -/
structure SuggestedRole where
  role_name : String
  why_it_fits : String

/-- The structured identity result dict. -/
structure IdentityResult where
  spark_archetypes : List SparkArchetype
  creative_environment : CreativeEnvironment
  suggested_roles : List SuggestedRole

/-- The `except` branch of `call_identity_ai`: a single archetype derived from the
chaos slider, an environment summary extended according to the solo/team slider,
and two fixed suggested roles. -/
def call_identity_ai_fallback (sliders : IdentitySliders) : IdentityResult :=
  let chaos_val := sliders.chaos_structure
  let solo_team := sliders.solo_team
  let base : SparkArchetype :=
    { name := "Emerging Creator",
      tagline := "You’re still exploring, but your creative spark is real.",
      description := "Based on your answers, you enjoy playing with ideas and noticing details in your own way. This archetype means you don’t have to have it all figured out yet — you’re in the discovery phase, which is powerful." }
  let arch :=
    if chaos_val ≥ 7 then
      { base with
        name := "Vibe Curator in Progress"
        tagline := "You like energy, mood, and letting things flow." }
    else if chaos_val ≤ 3 then
      { base with
        name := "Vision Architect in Progress"
        tagline := "You like plans, structure, and knowing the why behind things." }
    else base
  let env_summary :=
    "You’d likely do well in a space that gives you room to learn, experiment, and contribute without all the pressure on you at once."
  let env_summary :=
    if solo_team ≥ 7 then
      env_summary ++ " You seem to recharge around people and might enjoy small, tight-knit creative teams."
    else if solo_team ≤ 3 then
      env_summary ++ " You might prefer roles where you can focus quietly and then share your work."
    else env_summary
  { spark_archetypes := [arch],
    creative_environment :=
      { summary := env_summary,
        example_spaces :=
          ["A small content studio where you can learn from others",
           "A quiet edit bay or creator corner where you can focus"] },
    suggested_roles :=
      [{ role_name := "Content Assistant / Editor-in-training",
         why_it_fits := "You can experiment, learn tools, and slowly take on more responsibility without needing to be perfect on day one." },
       { role_name := "Production Helper on small shoots",
         why_it_fits := "You’ll see many parts of the process and figure out what you like best." }] }

/-! ## Confidence Lab submission (entxp.py lines 1113-1134) -/

/-- The structured submission stored as `confidence_raw`. -/
structure ConfRaw where
  weaknesses : List String
  barriers : List String
  extra_barrier : Option String
deriving DecidableEq

/-- The session state the Confidence Lab touches. -/
structure SparkConfState where
  confidence_raw : Option ConfRaw
  confidence_result : Option Json

/-- The weakness list: split the text area on newlines, strip each line, keep the
non-blank ones. -/
def weaknessList (text : String) : List String :=
  ((splitNlAux text.data []).map (fun l => String.mk (pyStrip l))).filter (fun s => s ≠ "")

/-- The submit handler of the Confidence Lab (the `Boost My Spark` branch of
`spark_main`): build the submission, store it as `confidence_raw`, then either warn
(all three inputs empty) or call the model and store the result.  The booleans
record (warning shown, `call_confidence_ai` invoked). -/
def spark_confidence_submit (ai : ConfRaw → Json) (st : SparkConfState)
    (weaknesses_text : String) (barriers : List String) (extra_barrier : String) :
    SparkConfState × Bool × Bool :=
  let weakness_list := weaknessList weaknesses_text
  let conf_raw : ConfRaw :=
    { weaknesses := weakness_list, barriers := barriers,
      extra_barrier := if pyStripStr extra_barrier = "" then none else some (pyStripStr extra_barrier) }
  let st1 := { st with confidence_raw := some conf_raw }
  if weakness_list = [] ∧ barriers = [] ∧ pyStripStr extra_barrier = "" then
    (st1, true, false)
  else
    ({ st1 with confidence_result := some (ai conf_raw) }, false, true)

/-! ## Utility lemmas -/

theorem skipWs_cons_neg {c : Char} (h : isJsonWs c = false) (l : List Char) :
    skipWs (c :: l) = c :: l := by
  simp [skipWs, h]

theorem skipWs_cons_pos {c : Char} (h : isJsonWs c = true) (l : List Char) :
    skipWs (c :: l) = skipWs l := by
  simp [skipWs, h]

theorem dropWhile_eq_self_of_head {p : Char → Bool} {l : List Char}
    (h : ∀ c, l.head? = some c → p c = false) : l.dropWhile p = l := by
  cases l with
  | nil => rfl
  | cons c t => simp [List.dropWhile_cons, h c rfl]

theorem pyStrip_eq_self {l : List Char}
    (h1 : ∀ c, l.head? = some c → isPyWs c = false)
    (h2 : ∀ c, l.getLast? = some c → isPyWs c = false) : pyStrip l = l := by
  unfold pyStrip
  rw [dropWhile_eq_self_of_head h1]
  rw [dropWhile_eq_self_of_head (by simpa [List.head?_reverse] using h2)]
  exact List.reverse_reverse l

theorem pyStrip_mem {c : Char} {l : List Char} (h : c ∈ pyStrip l) : c ∈ l := by
  unfold pyStrip at h
  rw [List.mem_reverse] at h
  have h2 := (List.dropWhile_sublist _).mem h
  rw [List.mem_reverse] at h2
  exact (List.dropWhile_sublist _).mem h2

theorem firstIdx_eq_none {l : List Char} {c : Char} (h : c ∉ l) : firstIdx l c = none := by
  induction l with
  | nil => rfl
  | cons x xs ih =>
    have hx : ¬x = c := fun hh => h (hh ▸ List.mem_cons_self x xs)
    simp [firstIdx, hx, ih (fun hm => h (List.mem_cons_of_mem x hm))]

theorem firstIdx_spec : ∀ (l : List Char) (c : Char) (s : Nat), firstIdx l c = some s →
    s < l.length ∧ l[s]? = some c ∧ ∀ i < s, l[i]? ≠ some c := by
  intro l
  induction l with
  | nil => intro c s h; exact absurd h (by simp [firstIdx])
  | cons x xs ih =>
    intro c s h
    by_cases hx : x = c
    · subst hx
      simp [firstIdx] at h
      subst h
      exact ⟨by simp, by simp, fun i hi => absurd hi (by omega)⟩
    · simp [firstIdx, hx] at h
      obtain ⟨s', hs', rfl⟩ := h
      obtain ⟨hlen, hget, hmin⟩ := ih c s' hs'
      refine ⟨by simpa using hlen, by simpa using hget, ?_⟩
      intro i hi
      cases i with
      | zero => simpa using hx
      | succ i' => simpa using hmin i' (by omega)

/-! ## Digit and number lemmas -/

theorem digitChar_isDigit {d : Nat} (h : d < 10) : (digitChar d).isDigit = true := by
  unfold digitChar
  interval_cases d <;> decide

theorem digitChar_val {d : Nat} (h : d < 10) : (digitChar d).toNat - 48 = d := by
  unfold digitChar
  interval_cases d <;> decide

theorem natToCharsAux_digits : ∀ (fuel n : Nat), n < fuel →
    ∀ c ∈ natToCharsAux fuel n, c.isDigit = true := by
  intro fuel
  induction fuel with
  | zero => intro n h; omega
  | succ f ih =>
    intro n hn c hc
    by_cases h10 : n < 10
    · simp [natToCharsAux, h10] at hc
      subst hc
      exact digitChar_isDigit h10
    · simp [natToCharsAux, h10] at hc
      rcases hc with hc | hc
      · exact ih (n / 10) (by omega) c hc
      · subst hc
        exact digitChar_isDigit (Nat.mod_lt _ (by omega))

theorem natToCharsAux_ne_nil : ∀ (fuel n : Nat), 0 < fuel → natToCharsAux fuel n ≠ [] := by
  intro fuel n h
  cases fuel with
  | zero => omega
  | succ f =>
    by_cases h10 : n < 10 <;> simp [natToCharsAux, h10]

theorem natToChars_digits {n : Nat} : ∀ c ∈ natToChars n, c.isDigit = true :=
  natToCharsAux_digits (n + 1) n (by omega)

theorem natToChars_ne_nil (n : Nat) : natToChars n ≠ [] :=
  natToCharsAux_ne_nil (n + 1) n (by omega)

theorem parseDigitsAux_append {ds : List Char} (hds : ∀ c ∈ ds, c.isDigit = true) :
    ∀ (acc : Nat) (rest : List Char),
    parseDigitsAux acc (ds ++ rest) =
      parseDigitsAux (ds.foldl (fun a c => a * 10 + (c.toNat - 48)) acc) rest := by
  induction ds with
  | nil => intro acc rest; rfl
  | cons c t ih =>
    intro acc rest
    have hc : c.isDigit = true := hds c (List.mem_cons_self c t)
    simp only [List.cons_append, parseDigitsAux, hc, if_true, List.foldl_cons]
    exact ih (fun x hx => hds x (List.mem_cons_of_mem c hx)) _ rest

theorem parseDigitsAux_stop {rest : List Char} (h : restOkB rest = true) (acc : Nat) :
    parseDigitsAux acc rest = (acc, rest) := by
  cases rest with
  | nil => rfl
  | cons c t =>
    have : c.isDigit = false := by simpa [restOkB] using h
    simp [parseDigitsAux, this]

theorem natToCharsAux_fold : ∀ (fuel n : Nat), n < fuel → ∀ acc : Nat,
    (natToCharsAux fuel n).foldl (fun a c => a * 10 + (c.toNat - 48)) acc =
      acc * 10 ^ (natToCharsAux fuel n).length + n := by
  intro fuel
  induction fuel with
  | zero => intro n h; omega
  | succ f ih =>
    intro n hn acc
    by_cases h10 : n < 10
    · simp [natToCharsAux, h10, digitChar_val h10]
    · have hrec : n / 10 < f := by omega
      simp only [natToCharsAux, h10, if_false, List.foldl_append, List.length_append,
        List.foldl_cons, List.foldl_nil, List.length_cons, List.length_nil]
      rw [ih (n / 10) hrec acc]
      rw [digitChar_val (Nat.mod_lt _ (by omega))]
      have : 10 ^ (0 + 1) = 10 := by norm_num
      rw [pow_add]
      have hdm : 10 * (n / 10) + n % 10 = n := Nat.div_add_mod n 10
      ring_nf
      omega

theorem natToChars_parse {n : Nat} {rest : List Char} (hrest : restOkB rest = true) :
    ∃ d ds, natToChars n = d :: ds ∧ d.isDigit = true ∧
      parseDigitsAux (d.toNat - 48) (ds ++ rest) = (n, rest) := by
  obtain ⟨d, ds, hcons⟩ := List.exists_cons_of_ne_nil (natToChars_ne_nil n)
  refine ⟨d, ds, hcons, natToChars_digits d (hcons ▸ List.mem_cons_self d ds), ?_⟩
  have hdig : ∀ c ∈ ds, c.isDigit = true := fun c hc =>
    natToChars_digits c (hcons ▸ List.mem_cons_of_mem d hc)
  rw [parseDigitsAux_append hdig, parseDigitsAux_stop hrest]
  have hfold := natToCharsAux_fold (n + 1) n (by omega) 0
  rw [show natToCharsAux (n + 1) n = natToChars n from rfl, hcons] at hfold
  simp only [List.foldl_cons, zero_mul, zero_add] at hfold
  have hfold2 : ds.foldl (fun a c => a * 10 + (c.toNat - 48)) (d.toNat - 48) = n := by
    simpa using hfold
  rw [hfold2]

/-! ## Character-class lemmas -/

theorem isDigit_ne {c x : Char} (h : c.isDigit = true) (hx : x.isDigit = false) : c ≠ x := by
  intro he
  subst he
  rw [h] at hx
  exact Bool.noConfusion hx

theorem isDigit_not_jsonWs {c : Char} (h : c.isDigit = true) : isJsonWs c = false := by
  have h1 : c ≠ ' ' := isDigit_ne h (by decide)
  have h2 : c ≠ '\t' := isDigit_ne h (by decide)
  have h3 : c ≠ '\n' := isDigit_ne h (by decide)
  have h4 : c ≠ '\r' := isDigit_ne h (by decide)
  simp [isJsonWs, h1, h2, h3, h4]

theorem isDigit_not_pyWs {c : Char} (h : c.isDigit = true) : isPyWs c = false := by
  have h5 : c ≠ Char.ofNat 11 := isDigit_ne h (by decide)
  have h6 : c ≠ Char.ofNat 12 := isDigit_ne h (by decide)
  simp [isPyWs, isDigit_not_jsonWs h, h5, h6]

theorem cleanChar_parts {c : Char} (h : cleanChar c = true) :
    c ≠ quoteChar ∧ c ≠ backslashChar ∧ c ≠ backtickChar ∧ ¬c.toNat < 32 := by
  have hb := h
  unfold cleanChar at hb
  simp only [Bool.and_eq_true, decide_eq_true_eq, bne_iff_ne, ne_eq] at hb
  obtain ⟨⟨⟨⟨h32, h126⟩, hq⟩, hbs⟩, hbt⟩ := hb
  exact ⟨hq, hbs, hbt, by omega⟩

/-! ## String-body round trip -/

theorem parseStringBody_clean : ∀ (s : List Char), s.all cleanChar = true → ∀ rest,
    parseStringBody (s ++ quoteChar :: rest) = some (s, rest) := by
  intro s
  induction s with
  | nil =>
    intro _ rest
    rw [List.nil_append]
    rfl
  | cons c t ih =>
    intro hall rest
    rw [List.all_cons, Bool.and_eq_true] at hall
    obtain ⟨hq, hbs, _, hn32⟩ := cleanChar_parts hall.1
    rw [List.cons_append, parseStringBody, if_neg hq, if_neg hbs, if_neg hn32, ih hall.2 rest]
    rfl

/-! ## Parser step lemmas -/

theorem parseValue_succ_null (fuel : Nat) (rest : List Char) :
    parseValue (fuel + 1) ('n' :: 'u' :: 'l' :: 'l' :: rest) = some (Json.null, rest) := rfl

theorem parseValue_succ_true (fuel : Nat) (rest : List Char) :
    parseValue (fuel + 1) ('t' :: 'r' :: 'u' :: 'e' :: rest) = some (Json.bool true, rest) := rfl

theorem parseValue_succ_false (fuel : Nat) (rest : List Char) :
    parseValue (fuel + 1) ('f' :: 'a' :: 'l' :: 's' :: 'e' :: rest) = some (Json.bool false, rest) := rfl

theorem parseValue_succ_quote (fuel : Nat) (cs : List Char) :
    parseValue (fuel + 1) (quoteChar :: cs) =
      (parseStringBody cs).map (fun p => (Json.str p.1, p.2)) := rfl

theorem parseValue_succ_arrNil (fuel : Nat) (rest : List Char) :
    parseValue (fuel + 1) ('[' :: ']' :: rest) = some (Json.arr [], rest) := rfl

theorem parseValue_succ_arrCons (fuel : Nat) {b : Char} (bs : List Char)
    (hws : isJsonWs b = false) (hb : b ≠ ']') :
    parseValue (fuel + 1) ('[' :: b :: bs) =
      (match parseValue fuel (b :: bs) with
       | none => none
       | some (v, r1) =>
         match parseArrItems fuel r1 with
         | none => none
         | some (vs, r2) => some (Json.arr (v :: vs), r2)) := by
  have h1 : ¬('[' = quoteChar) := by decide
  have h2 : ¬(isJsonWs '[' = true) := by decide
  conv_lhs => rw [parseValue.eq_def]
  simp [skipWs, hws, hb, h1, h2]

theorem parseValue_succ_objNil (fuel : Nat) (rest : List Char) :
    parseValue (fuel + 1) (lbraceChar :: rbraceChar :: rest) = some (Json.obj [], rest) := rfl

theorem parseValue_succ_objCons (fuel : Nat) {b : Char} (bs : List Char)
    (hws : isJsonWs b = false) (hb : b ≠ rbraceChar) :
    parseValue (fuel + 1) (lbraceChar :: b :: bs) =
      (match parseKeyColon (b :: bs) with
       | none => none
       | some (k, r1) =>
         match parseValue fuel r1 with
         | none => none
         | some (v, r2) =>
           match parseObjItems fuel r2 with
           | none => none
           | some (ms, r3) => some (Json.obj ((k, v) :: ms), r3)) := by
  have h1 : ¬(lbraceChar = quoteChar) := by decide
  have h2 : ¬(isJsonWs lbraceChar = true) := by decide
  have h3 : ¬(lbraceChar = 'n') := by decide
  have h4 : ¬(lbraceChar = 't') := by decide
  have h5 : ¬(lbraceChar = 'f') := by decide
  have h6 : ¬(lbraceChar = '[') := by decide
  conv_lhs => rw [parseValue.eq_def]
  simp [skipWs, hws, hb, h1, h2, h3, h4, h5, h6]

theorem parseValue_succ_minus (fuel : Nat) {d : Char} (ds : List Char) (hd : d.isDigit = true) :
    parseValue (fuel + 1) ('-' :: d :: ds) =
      some (Json.num (-((parseDigitsAux (d.toNat - 48) ds).1 : Int)),
            (parseDigitsAux (d.toNat - 48) ds).2) := by
  have h1 : ¬('-' = quoteChar) := by decide
  have h2 : ¬(isJsonWs '-' = true) := by decide
  have h3 : ¬(('-' : Char).isDigit = true) := by decide
  have h4 : ¬('-' = 'n') := by decide
  have h5 : ¬('-' = 't') := by decide
  have h6 : ¬('-' = 'f') := by decide
  have h7 : ¬('-' = '[') := by decide
  have h8 : ¬('-' = lbraceChar) := by decide
  conv_lhs => rw [parseValue.eq_def]
  simp [skipWs, hd, h1, h2, h3, h4, h5, h6, h7, h8]

theorem parseValue_succ_digit (fuel : Nat) {c : Char} (rest : List Char) (hc : c.isDigit = true) :
    parseValue (fuel + 1) (c :: rest) =
      some (Json.num ((parseDigitsAux (c.toNat - 48) rest).1 : Int),
            (parseDigitsAux (c.toNat - 48) rest).2) := by
  have h1 : c ≠ quoteChar := isDigit_ne hc (by decide)
  have h2 : c ≠ 'n' := isDigit_ne hc (by decide)
  have h3 : c ≠ 't' := isDigit_ne hc (by decide)
  have h4 : c ≠ 'f' := isDigit_ne hc (by decide)
  have h5 : c ≠ '[' := isDigit_ne hc (by decide)
  have h6 : c ≠ lbraceChar := isDigit_ne hc (by decide)
  have h7 : c ≠ '-' := isDigit_ne hc (by decide)
  have hws : isJsonWs c = false := isDigit_not_jsonWs hc
  conv_lhs => rw [parseValue.eq_def]
  simp [skipWs, hws, hc, h1, h2, h3, h4, h5, h6, h7]

theorem parseValue_ws (fuel : Nat) {c : Char} (cs : List Char) (h : isJsonWs c = true) :
    parseValue fuel (c :: cs) = parseValue fuel cs := by
  cases fuel with
  | zero => rfl
  | succ f =>
    have he : skipWs (c :: cs) = skipWs cs := skipWs_cons_pos h cs
    conv_lhs => rw [parseValue.eq_def]
    conv_rhs => rw [parseValue.eq_def]
    simp only [he]

theorem parseArrItems_succ_close (fuel : Nat) (r : List Char) :
    parseArrItems (fuel + 1) (']' :: r) = some ([], r) := rfl

theorem parseArrItems_succ_comma (fuel : Nat) (r : List Char) :
    parseArrItems (fuel + 1) (',' :: r) =
      (match parseValue fuel r with
       | none => none
       | some (v, r1) =>
         match parseArrItems fuel r1 with
         | none => none
         | some (vs, r2) => some (v :: vs, r2)) := rfl

theorem parseObjItems_succ_close (fuel : Nat) (r : List Char) :
    parseObjItems (fuel + 1) (rbraceChar :: r) = some ([], r) := rfl

theorem parseObjItems_succ_comma (fuel : Nat) (r : List Char) :
    parseObjItems (fuel + 1) (',' :: r) =
      (match parseKeyColon r with
       | none => none
       | some (k, r1) =>
         match parseValue fuel r1 with
         | none => none
         | some (v, r2) =>
           match parseObjItems fuel r2 with
           | none => none
           | some (ms, r3) => some ((k, v) :: ms, r3)) := rfl

theorem parseKeyColon_ws {c : Char} (h : isJsonWs c = true) (cs : List Char) :
    parseKeyColon (c :: cs) = parseKeyColon cs := by
  unfold parseKeyColon
  rw [skipWs_cons_pos h]

theorem parseKeyColon_clean {k : List Char} (hk : k.all cleanChar = true) (r : List Char) :
    parseKeyColon (quoteChar :: (k ++ quoteChar :: ':' :: r)) = some (k, r) := by
  have h2 : ¬(isJsonWs quoteChar = true) := by decide
  have h3 : ¬(isJsonWs ':' = true) := by decide
  unfold parseKeyColon
  rw [skipWs_cons_neg (by decide)]
  simp only [if_pos rfl, parseStringBody_clean k hk (':' :: r)]
  rw [skipWs_cons_neg (by decide)]
  simp

/-! ## Shape of serialised values -/

theorem mem_of_getLastQ {l : List Char} {c : Char} (h : l.getLast? = some c) : c ∈ l := by
  have hr : l.reverse.head? = some c := by rw [List.head?_reverse]; exact h
  exact List.mem_reverse.mp (List.mem_of_mem_head? (by simp [hr]))

theorem dumps_head (v : Json) : ∃ c t, dumps v = c :: t ∧ isJsonWs c = false ∧ isPyWs c = false ∧
    c ≠ ']' ∧ c ≠ rbraceChar ∧ c ≠ ',' := by
  cases v with
  | null => exact ⟨'n', _, rfl, by decide, by decide, by decide, by decide, by decide⟩
  | bool b =>
    cases b with
    | true => exact ⟨'t', _, rfl, by decide, by decide, by decide, by decide, by decide⟩
    | false => exact ⟨'f', _, rfl, by decide, by decide, by decide, by decide, by decide⟩
  | num i =>
    by_cases hi : i < 0
    · exact ⟨'-', natToChars i.natAbs, by simp [dumps, intChars, hi], by decide, by decide,
        by decide, by decide, by decide⟩
    · obtain ⟨d, ds, hcons⟩ := List.exists_cons_of_ne_nil (natToChars_ne_nil i.natAbs)
      have hd : d.isDigit = true := natToChars_digits d (hcons ▸ List.mem_cons_self d ds)
      exact ⟨d, ds, by simp [dumps, intChars, hi, hcons], isDigit_not_jsonWs hd,
        isDigit_not_pyWs hd, isDigit_ne hd (by decide), isDigit_ne hd (by decide),
        isDigit_ne hd (by decide)⟩
  | str s =>
    exact ⟨quoteChar, s ++ [quoteChar], by simp [dumps], by decide, by decide, by decide,
      by decide, by decide⟩
  | arr xs =>
    exact ⟨'[', dumpsElems xs ++ [']'], by simp [dumps], by decide, by decide, by decide,
      by decide, by decide⟩
  | obj ms =>
    exact ⟨lbraceChar, dumpsMembers ms ++ [rbraceChar], by simp [dumps], by decide, by decide,
      by decide, by decide, by decide⟩

theorem getLastQ_of_ne_nil {l : List Char} (h : l ≠ []) : ∃ c, l.getLast? = some c := by
  cases hl : l.getLast? with
  | none => exact absurd (List.getLast?_eq_none_iff.mp hl) h
  | some c => exact ⟨c, rfl⟩

theorem dumps_last (v : Json) : ∃ c, (dumps v).getLast? = some c ∧ isPyWs c = false := by
  cases v with
  | null => exact ⟨'l', rfl, by decide⟩
  | bool b =>
    cases b with
    | true => exact ⟨'e', rfl, by decide⟩
    | false => exact ⟨'e', rfl, by decide⟩
  | num i =>
    obtain ⟨c, hc⟩ := getLastQ_of_ne_nil (natToChars_ne_nil i.natAbs)
    have hd : c.isDigit = true := natToChars_digits c (mem_of_getLastQ hc)
    by_cases hi : i < 0
    · refine ⟨c, ?_, isDigit_not_pyWs hd⟩
      have : dumps (Json.num i) = ['-'] ++ natToChars i.natAbs := by simp [dumps, intChars, hi]
      rw [this, List.getLast?_append_of_ne_nil _ (natToChars_ne_nil i.natAbs)]
      exact hc
    · refine ⟨c, ?_, isDigit_not_pyWs hd⟩
      have : dumps (Json.num i) = natToChars i.natAbs := by simp [dumps, intChars, hi]
      rw [this]
      exact hc
  | str s =>
    refine ⟨quoteChar, ?_, by decide⟩
    have : dumps (Json.str s) = (quoteChar :: s) ++ [quoteChar] := by simp [dumps]
    rw [this, List.getLast?_concat]
  | arr xs =>
    refine ⟨']', ?_, by decide⟩
    have : dumps (Json.arr xs) = ('[' :: dumpsElems xs) ++ [']'] := by simp [dumps]
    rw [this, List.getLast?_concat]
  | obj ms =>
    refine ⟨rbraceChar, ?_, by decide⟩
    have : dumps (Json.obj ms) = (lbraceChar :: dumpsMembers ms) ++ [rbraceChar] := by simp [dumps]
    rw [this, List.getLast?_concat]

theorem pyStrip_dumps (v : Json) : pyStrip (dumps v) = dumps v := by
  obtain ⟨c, t, hcons, _, hpy, _, _, _⟩ := dumps_head v
  obtain ⟨e, he, hpe⟩ := dumps_last v
  apply pyStrip_eq_self
  · intro x hx
    rw [hcons] at hx
    simp only [List.head?_cons, Option.some.injEq] at hx
    subst hx
    exact hpy
  · intro x hx
    rw [he] at hx
    cases hx
    exact hpe

/-! ## Size measures versus serialised length -/

theorem jsize_pos (v : Json) : 1 ≤ jsize v := by
  cases v with
  | null => simp [jsize]
  | bool b => simp [jsize]
  | num i => simp [jsize]
  | str s => simp [jsize]
  | arr xs => cases xs <;> simp [jsize] <;> omega
  | obj ms => cases ms <;> simp [jsize] <;> omega

theorem isize_pos (xs : List Json) : 1 ≤ isize xs := by
  cases xs <;> simp [isize] <;> omega

theorem msize_pos (ms : List (List Char × Json)) : 1 ≤ msize ms := by
  cases ms <;> simp [msize] <;> omega

theorem jsize_le_dumps_all : ∀ fuel : Nat,
    (∀ v, jsize v ≤ fuel → jsize v ≤ (dumps v).length + 1) ∧
    (∀ xs, isize xs ≤ fuel → isize xs ≤ (dumpsTail xs).length + 1) ∧
    (∀ ms, msize ms ≤ fuel → msize ms ≤ (dumpsMemTail ms).length + 1) := by
  intro fuel
  induction fuel with
  | zero =>
    refine ⟨fun v hv => ?_, fun xs hxs => ?_, fun ms hms => ?_⟩
    · exact absurd hv (by have := jsize_pos v; omega)
    · exact absurd hxs (by have := isize_pos xs; omega)
    · exact absurd hms (by have := msize_pos ms; omega)
  | succ f ih =>
    obtain ⟨ihv, ihi, ihm⟩ := ih
    refine ⟨fun v hv => ?_, fun xs hxs => ?_, fun ms hms => ?_⟩
    · cases v with
      | null => simp [jsize]
      | bool b => simp [jsize]
      | num i => simp [jsize]
      | str s => simp [jsize]
      | arr xs =>
        cases xs with
        | nil => simp [jsize]
        | cons x xs' =>
          have h1 : jsize x ≤ f := by have := isize_pos xs'; simp [jsize] at hv; omega
          have h2 : isize xs' ≤ f := by have := jsize_pos x; simp [jsize] at hv; omega
          have e1 := ihv x h1
          have e2 := ihi xs' h2
          simp only [jsize, dumps, dumpsElems, List.length_cons, List.length_append]
          omega
      | obj ms =>
        cases ms with
        | nil => simp [jsize]
        | cons m ms' =>
          obtain ⟨k, v2⟩ := m
          have h1 : jsize v2 ≤ f := by have := msize_pos ms'; simp [jsize] at hv; omega
          have h2 : msize ms' ≤ f := by have := jsize_pos v2; simp [jsize] at hv; omega
          have e1 := ihv v2 h1
          have e2 := ihm ms' h2
          simp only [jsize, dumps, dumpsMembers, List.length_cons, List.length_append]
          omega
    · cases xs with
      | nil => simp [isize, dumpsTail]
      | cons x xs' =>
        have h1 : jsize x ≤ f := by have := isize_pos xs'; simp [isize] at hxs; omega
        have h2 : isize xs' ≤ f := by have := jsize_pos x; simp [isize] at hxs; omega
        have e1 := ihv x h1
        have e2 := ihi xs' h2
        simp only [isize, dumpsTail, List.length_cons, List.length_append]
        omega
    · cases ms with
      | nil => simp [msize, dumpsMemTail]
      | cons m ms' =>
        obtain ⟨k, v2⟩ := m
        have h1 : jsize v2 ≤ f := by have := msize_pos ms'; simp [msize] at hms; omega
        have h2 : msize ms' ≤ f := by have := jsize_pos v2; simp [msize] at hms; omega
        have e1 := ihv v2 h1
        have e2 := ihm ms' h2
        simp only [msize, dumpsMemTail, List.length_cons, List.length_append]
        omega

theorem jsize_le_dumps (v : Json) : jsize v ≤ (dumps v).length + 1 :=
  (jsize_le_dumps_all (jsize v)).1 v le_rfl

/-! ## The serialisation round trip through the parser -/

theorem restOkB_tail_arr (xs' : List Json) (rest : List Char) :
    restOkB (dumpsTail xs' ++ ']' :: rest) = true := by
  cases xs' with
  | nil => rfl
  | cons y ys => rfl

theorem restOkB_tail_obj (ms' : List (List Char × Json)) (rest : List Char) :
    restOkB (dumpsMemTail ms' ++ rbraceChar :: rest) = true := by
  cases ms' with
  | nil => rfl
  | cons m ms =>
    obtain ⟨k, v⟩ := m
    rfl

theorem parse_dumps_all : ∀ fuel : Nat,
    (∀ v rest, cleanJson v = true → jsize v ≤ fuel → restOkB rest = true →
      parseValue fuel (dumps v ++ rest) = some (v, rest)) ∧
    (∀ xs rest, cleanElems xs = true → isize xs ≤ fuel → restOkB rest = true →
      parseArrItems fuel (dumpsTail xs ++ ']' :: rest) = some (xs, rest)) ∧
    (∀ ms rest, cleanMembers ms = true → msize ms ≤ fuel → restOkB rest = true →
      parseObjItems fuel (dumpsMemTail ms ++ rbraceChar :: rest) = some (ms, rest)) := by
  intro fuel
  induction fuel with
  | zero =>
    refine ⟨fun v rest hc hs hr => ?_, fun xs rest hc hs hr => ?_, fun ms rest hc hs hr => ?_⟩
    · exact absurd hs (by have := jsize_pos v; omega)
    · exact absurd hs (by have := isize_pos xs; omega)
    · exact absurd hs (by have := msize_pos ms; omega)
  | succ f ih =>
    obtain ⟨ihv, ihi, ihm⟩ := ih
    refine ⟨fun v rest hc hs hr => ?_, fun xs rest hc hs hr => ?_, fun ms rest hc hs hr => ?_⟩
    · cases v with
      | null => exact parseValue_succ_null f rest
      | bool b =>
        cases b with
        | true => exact parseValue_succ_true f rest
        | false => exact parseValue_succ_false f rest
      | num i =>
        by_cases hi : i < 0
        · obtain ⟨d, ds, hcons, hd, hparse⟩ := natToChars_parse (n := i.natAbs) hr
          have heq : dumps (Json.num i) ++ rest = '-' :: d :: (ds ++ rest) := by
            simp [dumps, intChars, hi, hcons]
          rw [heq, parseValue_succ_minus f (ds ++ rest) hd, hparse]
          have hv : -((i.natAbs : Nat) : Int) = i := by omega
          rw [hv]
        · obtain ⟨d, ds, hcons, hd, hparse⟩ := natToChars_parse (n := i.natAbs) hr
          have heq : dumps (Json.num i) ++ rest = d :: (ds ++ rest) := by
            simp [dumps, intChars, hi, hcons]
          rw [heq, parseValue_succ_digit f (ds ++ rest) hd, hparse]
          have hv : ((i.natAbs : Nat) : Int) = i := by omega
          rw [hv]
      | str s =>
        have hall : s.all cleanChar = true := by simpa [cleanJson] using hc
        have heq : dumps (Json.str s) ++ rest = quoteChar :: (s ++ quoteChar :: rest) := by
          simp [dumps]
        rw [heq, parseValue_succ_quote, parseStringBody_clean s hall rest]
        rfl
      | arr xs =>
        cases xs with
        | nil =>
          have heq : dumps (Json.arr []) ++ rest = '[' :: ']' :: rest := by
            simp [dumps, dumpsElems]
          rw [heq, parseValue_succ_arrNil]
        | cons x xs' =>
          obtain ⟨b, t, hbx, hbws, _, hbne, _, _⟩ := dumps_head x
          have hcx : cleanJson x = true ∧ cleanElems xs' = true := by
            simpa [cleanJson, cleanElems, Bool.and_eq_true] using hc
          have hsx : jsize x ≤ f := by have := isize_pos xs'; simp [jsize] at hs; omega
          have hsxs : isize xs' ≤ f := by have := jsize_pos x; simp [jsize] at hs; omega
          have step1 : parseValue f (dumps x ++ (dumpsTail xs' ++ ']' :: rest)) =
              some (x, dumpsTail xs' ++ ']' :: rest) :=
            ihv x _ hcx.1 hsx (restOkB_tail_arr xs' rest)
          have step1' : parseValue f (b :: (t ++ (dumpsTail xs' ++ ']' :: rest))) =
              some (x, dumpsTail xs' ++ ']' :: rest) := by
            rw [← List.cons_append, ← hbx]
            exact step1
          have step2 : parseArrItems f (dumpsTail xs' ++ ']' :: rest) = some (xs', rest) :=
            ihi xs' rest hcx.2 hsxs hr
          have heq : dumps (Json.arr (x :: xs')) ++ rest =
              '[' :: b :: (t ++ (dumpsTail xs' ++ ']' :: rest)) := by
            simp [dumps, dumpsElems, hbx]
          rw [heq, parseValue_succ_arrCons f (t ++ (dumpsTail xs' ++ ']' :: rest)) hbws hbne]
          simp only [step1', step2]
      | obj ms =>
        cases ms with
        | nil =>
          have heq : dumps (Json.obj []) ++ rest = lbraceChar :: rbraceChar :: rest := by
            simp [dumps, dumpsMembers]
          rw [heq, parseValue_succ_objNil]
        | cons m ms' =>
          obtain ⟨k, v2⟩ := m
          have hck : k.all cleanChar = true ∧ cleanJson v2 = true ∧ cleanMembers ms' = true := by
            simpa [cleanJson, cleanMembers, Bool.and_eq_true, and_assoc] using hc
          have hsv : jsize v2 ≤ f := by have := msize_pos ms'; simp [jsize] at hs; omega
          have hsms : msize ms' ≤ f := by have := jsize_pos v2; simp [jsize] at hs; omega
          have hkc : parseKeyColon (quoteChar ::
              (k ++ quoteChar :: ':' :: (' ' :: (dumps v2 ++
                (dumpsMemTail ms' ++ rbraceChar :: rest))))) =
              some (k, ' ' :: (dumps v2 ++ (dumpsMemTail ms' ++ rbraceChar :: rest))) :=
            parseKeyColon_clean hck.1 _
          have step1 : parseValue f (' ' :: (dumps v2 ++ (dumpsMemTail ms' ++ rbraceChar :: rest))) =
              some (v2, dumpsMemTail ms' ++ rbraceChar :: rest) := by
            rw [parseValue_ws f _ (by decide)]
            exact ihv v2 _ hck.2.1 hsv (restOkB_tail_obj ms' rest)
          have step2 : parseObjItems f (dumpsMemTail ms' ++ rbraceChar :: rest) =
              some (ms', rest) := ihm ms' rest hck.2.2 hsms hr
          have heq : dumps (Json.obj ((k, v2) :: ms')) ++ rest =
              lbraceChar :: quoteChar ::
                (k ++ quoteChar :: ':' :: (' ' :: (dumps v2 ++
                  (dumpsMemTail ms' ++ rbraceChar :: rest)))) := by
            simp [dumps, dumpsMembers]
          rw [heq, parseValue_succ_objCons f _ (by decide) (by decide)]
          simp only [hkc, step1, step2]
    · cases xs with
      | nil => exact parseArrItems_succ_close f rest
      | cons x xs' =>
        have hcx : cleanJson x = true ∧ cleanElems xs' = true := by
          simpa [cleanElems, Bool.and_eq_true] using hc
        have hsx : jsize x ≤ f := by have := isize_pos xs'; simp [isize] at hs; omega
        have hsxs : isize xs' ≤ f := by have := jsize_pos x; simp [isize] at hs; omega
        have step1 : parseValue f (' ' :: (dumps x ++ (dumpsTail xs' ++ ']' :: rest))) =
            some (x, dumpsTail xs' ++ ']' :: rest) := by
          rw [parseValue_ws f _ (by decide)]
          exact ihv x _ hcx.1 hsx (restOkB_tail_arr xs' rest)
        have step2 : parseArrItems f (dumpsTail xs' ++ ']' :: rest) = some (xs', rest) :=
          ihi xs' rest hcx.2 hsxs hr
        have heq : dumpsTail (x :: xs') ++ ']' :: rest =
            ',' :: ' ' :: (dumps x ++ (dumpsTail xs' ++ ']' :: rest)) := by
          simp [dumpsTail]
        rw [heq, parseArrItems_succ_comma f]
        simp only [step1, step2]
    · cases ms with
      | nil => exact parseObjItems_succ_close f rest
      | cons m ms' =>
        obtain ⟨k, v2⟩ := m
        have hck : k.all cleanChar = true ∧ cleanJson v2 = true ∧ cleanMembers ms' = true := by
          simpa [cleanMembers, Bool.and_eq_true, and_assoc] using hc
        have hsv : jsize v2 ≤ f := by have := msize_pos ms'; simp [msize] at hs; omega
        have hsms : msize ms' ≤ f := by have := jsize_pos v2; simp [msize] at hs; omega
        have hkc : parseKeyColon (quoteChar ::
            (k ++ quoteChar :: ':' :: (' ' :: (dumps v2 ++
              (dumpsMemTail ms' ++ rbraceChar :: rest))))) =
            some (k, ' ' :: (dumps v2 ++ (dumpsMemTail ms' ++ rbraceChar :: rest))) :=
          parseKeyColon_clean hck.1 _
        have step1 : parseValue f (' ' :: (dumps v2 ++ (dumpsMemTail ms' ++ rbraceChar :: rest))) =
            some (v2, dumpsMemTail ms' ++ rbraceChar :: rest) := by
          rw [parseValue_ws f _ (by decide)]
          exact ihv v2 _ hck.2.1 hsv (restOkB_tail_obj ms' rest)
        have step2 : parseObjItems f (dumpsMemTail ms' ++ rbraceChar :: rest) =
            some (ms', rest) := ihm ms' rest hck.2.2 hsms hr
        have hkc2 : parseKeyColon (' ' :: (quoteChar ::
            (k ++ quoteChar :: ':' :: (' ' :: (dumps v2 ++
              (dumpsMemTail ms' ++ rbraceChar :: rest)))))) =
            some (k, ' ' :: (dumps v2 ++ (dumpsMemTail ms' ++ rbraceChar :: rest))) := by
          rw [parseKeyColon_ws (by decide)]
          exact hkc
        have heq : dumpsMemTail ((k, v2) :: ms') ++ rbraceChar :: rest =
            ',' :: ' ' :: (quoteChar :: (k ++ quoteChar :: ':' :: (' ' :: (dumps v2 ++
              (dumpsMemTail ms' ++ rbraceChar :: rest))))) := by
          simp [dumpsMemTail]
        rw [heq, parseObjItems_succ_comma f]
        simp only [hkc2, step1, step2]

theorem jsonParse_dumps {v : Json} (hc : cleanJson v = true) : jsonParse (dumps v) = some v := by
  have h := (parse_dumps_all ((dumps v).length + 1)).1 v [] hc (jsize_le_dumps v) rfl
  rw [List.append_nil] at h
  unfold jsonParse
  rw [h]
  rfl

/-! ## Strategy 1: direct parse -/

theorem safe_json_direct {s : List Char} {v : Json} (h : jsonParse (pyStrip s) = some v) :
    safe_json_from_model s = Except.ok v := by
  unfold safe_json_from_model
  simp only [h]

theorem safe_json_bare {v : Json} (hc : cleanJson v = true) :
    safe_json_from_model (dumps v) = Except.ok v :=
  safe_json_direct (by rw [pyStrip_dumps]; exact jsonParse_dumps hc)

/-! ## Strategy 2: fenced blocks -/

theorem parseValue_succ_backtick (fuel : Nat) (cs : List Char) :
    parseValue (fuel + 1) (backtickChar :: cs) = none := rfl

theorem jsonParse_backtick (cs : List Char) : jsonParse (backtickChar :: cs) = none := rfl

theorem splitTicksAux_fence (r acc : List Char) :
    splitTicksAux (backtickChar :: backtickChar :: backtickChar :: r) acc =
      acc.reverse :: splitTicksAux r [] := by
  simp [splitTicksAux]

theorem splitTicksAux_step {c : Char} (hc : c ≠ backtickChar) {l : List Char}
    (hl : 2 ≤ l.length) (acc : List Char) :
    splitTicksAux (c :: l) acc = splitTicksAux l (c :: acc) := by
  rcases l with _ | ⟨a, _ | ⟨b, t⟩⟩
  · simp at hl
  · simp at hl
  · simp [splitTicksAux, hc]

theorem splitTicksAux_no_tick_fence : ∀ (m : List Char), backtickChar ∉ m → ∀ (r acc : List Char),
    splitTicksAux (m ++ backtickChar :: backtickChar :: backtickChar :: r) acc =
      (acc.reverse ++ m) :: splitTicksAux r [] := by
  intro m
  induction m with
  | nil =>
    intro _ r acc
    rw [List.nil_append, splitTicksAux_fence]
    simp
  | cons c m' ih =>
    intro hm r acc
    have hc : c ≠ backtickChar := fun he => hm (he ▸ List.mem_cons_self c m')
    have hm' : backtickChar ∉ m' := fun hmem => hm (List.mem_cons_of_mem c hmem)
    rw [List.cons_append, splitTicksAux_step hc (by simp; omega) acc, ih hm' r (c :: acc)]
    simp

theorem splitTicksAux_no_tick : ∀ (m : List Char), backtickChar ∉ m → ∀ (acc : List Char),
    splitTicksAux m acc = [acc.reverse ++ m] := by
  intro m
  induction m with
  | nil => intro _ acc; simp [splitTicksAux]
  | cons c m' ih =>
    intro hm acc
    have hc : c ≠ backtickChar := fun he => hm (he ▸ List.mem_cons_self c m')
    have hm' : backtickChar ∉ m' := fun hmem => hm (List.mem_cons_of_mem c hmem)
    rcases m' with _ | ⟨c2, _ | ⟨c3, t⟩⟩
    · simp [splitTicksAux]
    · simp [splitTicksAux]
    · rw [splitTicksAux_step hc (by simp) acc, ih hm' (c :: acc)]
      simp

theorem splitTicks_tickWrap {d : List Char} (hd : backtickChar ∉ d) :
    splitTicks (tickWrap d) = [[], '\n' :: (d ++ ['\n']), []] := by
  unfold splitTicks tickWrap
  rw [splitTicksAux_fence]
  have hshape : '\n' :: (d ++ '\n' :: backtickChar :: backtickChar :: backtickChar :: []) =
      ('\n' :: (d ++ ['\n'])) ++ backtickChar :: backtickChar :: backtickChar :: [] := by
    simp
  have hm : backtickChar ∉ '\n' :: (d ++ ['\n']) := by
    intro hmem
    rcases List.mem_cons.mp hmem with he | hmem2
    · exact absurd he.symm (by decide)
    · rcases List.mem_append.mp hmem2 with h3 | h4
      · exact hd h3
      · simp at h4
        exact absurd h4.symm (by decide)
  rw [hshape, splitTicksAux_no_tick_fence _ hm]
  simp [splitTicksAux]

theorem natToChars_not_tick {n : Nat} : backtickChar ∉ natToChars n := by
  intro hmem
  have := natToChars_digits _ hmem
  exact absurd this (by decide)

theorem dumps_no_tick_all : ∀ fuel : Nat,
    (∀ v, cleanJson v = true → jsize v ≤ fuel → backtickChar ∉ dumps v) ∧
    (∀ xs, cleanElems xs = true → isize xs ≤ fuel → backtickChar ∉ dumpsTail xs) ∧
    (∀ ms, cleanMembers ms = true → msize ms ≤ fuel → backtickChar ∉ dumpsMemTail ms) := by
  intro fuel
  induction fuel with
  | zero =>
    refine ⟨fun v hc hs => ?_, fun xs hc hs => ?_, fun ms hc hs => ?_⟩
    · exact absurd hs (by have := jsize_pos v; omega)
    · exact absurd hs (by have := isize_pos xs; omega)
    · exact absurd hs (by have := msize_pos ms; omega)
  | succ f ih =>
    obtain ⟨ihv, ihi, ihm⟩ := ih
    refine ⟨fun v hc hs => ?_, fun xs hc hs => ?_, fun ms hc hs => ?_⟩
    · cases v with
      | null => simp [dumps]; decide
      | bool b => cases b <;> (simp [dumps]; decide)
      | num i =>
        intro hmem
        simp only [dumps, intChars] at hmem
        by_cases hi : i < 0
        · rw [if_pos hi] at hmem
          rcases List.mem_cons.mp hmem with he | hmem2
          · exact absurd he (by decide)
          · exact natToChars_not_tick hmem2
        · rw [if_neg hi] at hmem
          exact natToChars_not_tick hmem
      | str s =>
        intro hmem
        simp only [dumps] at hmem
        have hall : s.all cleanChar = true := by simpa [cleanJson] using hc
        rcases List.mem_cons.mp hmem with he | hmem2
        · exact absurd he (by decide)
        · rcases List.mem_append.mp hmem2 with h3 | h4
          · have := List.all_eq_true.mp hall _ h3
            exact absurd this (by decide)
          · simp at h4
            exact absurd h4 (by decide)
      | arr xs =>
        cases xs with
        | nil => simp [dumps, dumpsElems]; decide
        | cons x xs' =>
          intro hmem
          have hcx : cleanJson x = true ∧ cleanElems xs' = true := by
            simpa [cleanJson, cleanElems, Bool.and_eq_true] using hc
          have hsx : jsize x ≤ f := by have := isize_pos xs'; simp [jsize] at hs; omega
          have hsxs : isize xs' ≤ f := by have := jsize_pos x; simp [jsize] at hs; omega
          simp only [dumps, dumpsElems] at hmem
          rcases List.mem_cons.mp hmem with he | hmem2
          · exact absurd he (by decide)
          · rcases List.mem_append.mp hmem2 with h3 | h4
            · rcases List.mem_append.mp h3 with h5 | h6
              · exact ihv x hcx.1 hsx h5
              · exact ihi xs' hcx.2 hsxs h6
            · simp at h4
              exact absurd h4 (by decide)
      | obj ms =>
        cases ms with
        | nil => simp [dumps, dumpsMembers]; decide
        | cons m ms' =>
          obtain ⟨k, v2⟩ := m
          intro hmem
          have hck : k.all cleanChar = true ∧ cleanJson v2 = true ∧ cleanMembers ms' = true := by
            simpa [cleanJson, cleanMembers, Bool.and_eq_true, and_assoc] using hc
          have hsv : jsize v2 ≤ f := by have := msize_pos ms'; simp [jsize] at hs; omega
          have hsms : msize ms' ≤ f := by have := jsize_pos v2; simp [jsize] at hs; omega
          have hk : backtickChar ∉ k := fun h =>
            absurd (List.all_eq_true.mp hck.1 _ h) (by decide)
          have e1 : ¬(backtickChar = quoteChar) := by decide
          have e2 : ¬(backtickChar = lbraceChar) := by decide
          have e3 : ¬(backtickChar = rbraceChar) := by decide
          have e4 : ¬(backtickChar = ':') := by decide
          have e5 : ¬(backtickChar = ' ') := by decide
          simp [dumps, dumpsMembers, List.mem_cons, List.mem_append, hk,
            e1, e2, e3, e4, e5] at hmem
          rcases hmem with h11 | h12
          · exact ihv v2 hck.2.1 hsv h11
          · exact ihm ms' hck.2.2 hsms h12
    · cases xs with
      | nil => simp [dumpsTail]
      | cons x xs' =>
        intro hmem
        have hcx : cleanJson x = true ∧ cleanElems xs' = true := by
          simpa [cleanElems, Bool.and_eq_true] using hc
        have hsx : jsize x ≤ f := by have := isize_pos xs'; simp [isize] at hs; omega
        have hsxs : isize xs' ≤ f := by have := jsize_pos x; simp [isize] at hs; omega
        simp only [dumpsTail] at hmem
        rcases List.mem_cons.mp hmem with he | hmem2
        · exact absurd he (by decide)
        · rcases List.mem_cons.mp hmem2 with he2 | hmem3
          · exact absurd he2 (by decide)
          · rcases List.mem_append.mp hmem3 with h5 | h6
            · exact ihv x hcx.1 hsx h5
            · exact ihi xs' hcx.2 hsxs h6
    · cases ms with
      | nil => simp [dumpsMemTail]
      | cons m ms' =>
        obtain ⟨k, v2⟩ := m
        intro hmem
        have hck : k.all cleanChar = true ∧ cleanJson v2 = true ∧ cleanMembers ms' = true := by
          simpa [cleanMembers, Bool.and_eq_true, and_assoc] using hc
        have hsv : jsize v2 ≤ f := by have := msize_pos ms'; simp [msize] at hs; omega
        have hsms : msize ms' ≤ f := by have := jsize_pos v2; simp [msize] at hs; omega
        have hk : backtickChar ∉ k := fun h =>
          absurd (List.all_eq_true.mp hck.1 _ h) (by decide)
        have e1 : ¬(backtickChar = quoteChar) := by decide
        have e4 : ¬(backtickChar = ':') := by decide
        have e5 : ¬(backtickChar = ' ') := by decide
        have e6 : ¬(backtickChar = ',') := by decide
        simp [dumpsMemTail, List.mem_cons, List.mem_append, hk, e1, e4, e5, e6] at hmem
        rcases hmem with h10 | h11
        · exact ihv v2 hck.2.1 hsv h10
        · exact ihm ms' hck.2.2 hsms h11

theorem dumps_no_tick {v : Json} (hc : cleanJson v = true) : backtickChar ∉ dumps v :=
  (dumps_no_tick_all (jsize v)).1 v hc le_rfl

theorem pyStrip_nlWrap (v : Json) : pyStrip ('\n' :: (dumps v ++ ['\n'])) = dumps v := by
  obtain ⟨c, t, hcons, _, hpyc, _, _, _⟩ := dumps_head v
  obtain ⟨e, he, hpe⟩ := dumps_last v
  unfold pyStrip
  have h1 : ('\n' :: (dumps v ++ ['\n'])).dropWhile isPyWs =
      (dumps v ++ ['\n']).dropWhile isPyWs := by
    rw [List.dropWhile_cons, if_pos (by decide)]
  have h2 : (dumps v ++ ['\n']).dropWhile isPyWs = dumps v ++ ['\n'] := by
    apply dropWhile_eq_self_of_head
    intro x hx
    rw [hcons] at hx
    simp only [List.cons_append, List.head?_cons, Option.some.injEq] at hx
    subst hx
    exact hpyc
  rw [h1, h2]
  have h3 : (dumps v ++ ['\n']).reverse = '\n' :: (dumps v).reverse := by
    simp
  rw [h3, List.dropWhile_cons, if_pos (by decide)]
  have h4 : (dumps v).reverse.dropWhile isPyWs = (dumps v).reverse := by
    apply dropWhile_eq_self_of_head
    intro x hx
    rw [List.head?_reverse, he] at hx
    cases hx
    exact hpe
  rw [h4, List.reverse_reverse]

theorem fenceParts_nil_head (ps : List (List Char)) :
    fenceParts ([] :: ps) = fenceParts ps := rfl

theorem fenceScan_tickWrap {v : Json} (hc : cleanJson v = true) (hcont : isContainer v = true) :
    fenceScan (tickWrap (dumps v)) = some v := by
  have hnt : backtickChar ∉ dumps v := dumps_no_tick hc
  have hjp : jsonParse (dumps v) = some v := jsonParse_dumps hc
  have hstrip := pyStrip_nlWrap v
  unfold fenceScan
  rw [splitTicks_tickWrap hnt]
  rw [if_neg (by simp)]
  rw [fenceParts_nil_head]
  cases v with
  | null => exact absurd hcont (by simp [isContainer])
  | bool b => exact absurd hcont (by simp [isContainer])
  | num i => exact absurd hcont (by simp [isContainer])
  | str s => exact absurd hcont (by simp [isContainer])
  | arr xs =>
    have hcons : dumps (Json.arr xs) = '[' :: (dumpsElems xs ++ [']']) := by simp [dumps]
    have hjp2 : jsonParse ('[' :: (dumpsElems xs ++ [']'])) = some (Json.arr xs) := by
      rw [← hcons]; exact hjp
    have hor : (decide (('[' : Char) = '[') || decide (('[' : Char) = lbraceChar)) = true := by
      decide
    have hstrip2 : pyStrip ('\n' :: ('[' :: (dumpsElems xs ++ [']']) ++ ['\n'])) =
        '[' :: (dumpsElems xs ++ [']']) := by
      rw [← hcons]
      exact hstrip
    rw [fenceParts.eq_def]
    simp only [hcons, hstrip2, hor, if_true, hjp2]
    simp
  | obj ms =>
    have hcons : dumps (Json.obj ms) = lbraceChar :: (dumpsMembers ms ++ [rbraceChar]) := by
      simp [dumps]
    have hjp2 : jsonParse (lbraceChar :: (dumpsMembers ms ++ [rbraceChar])) =
        some (Json.obj ms) := by
      rw [← hcons]; exact hjp
    have hor : (decide (lbraceChar = '[') || decide (lbraceChar = lbraceChar)) = true := by
      decide
    have hstrip2 : pyStrip ('\n' :: (lbraceChar :: (dumpsMembers ms ++ [rbraceChar]) ++ ['\n'])) =
        lbraceChar :: (dumpsMembers ms ++ [rbraceChar]) := by
      rw [← hcons]
      exact hstrip
    rw [fenceParts.eq_def]
    simp only [hcons, hstrip2, hor, if_true, hjp2]
    simp

theorem safe_json_fence {v : Json} (hc : cleanJson v = true) (hcont : isContainer v = true) :
    safe_json_from_model (tickWrap (dumps v)) = Except.ok v := by
  have hps : pyStrip (tickWrap (dumps v)) = tickWrap (dumps v) := by
    apply pyStrip_eq_self
    · intro c hcx
      unfold tickWrap at hcx
      simp only [List.head?_cons, Option.some.injEq] at hcx
      subst hcx
      decide
    · intro c hcx
      have hshape : tickWrap (dumps v) =
          (backtickChar :: backtickChar :: backtickChar :: '\n' ::
            (dumps v ++ ['\n', backtickChar, backtickChar])) ++ [backtickChar] := by
        simp [tickWrap]
      rw [hshape, List.getLast?_concat] at hcx
      cases hcx
      decide
  have hjp : jsonParse (pyStrip (tickWrap (dumps v))) = none := by
    rw [hps]
    exact jsonParse_backtick _
  have hfs : fenceScan (pyStrip (tickWrap (dumps v))) = some v := by
    rw [hps]
    exact fenceScan_tickWrap hc hcont
  unfold safe_json_from_model
  simp only [hjp, hfs]

/-! ## Strategy 3: the bracket scan -/

theorem scanFrom_sound {close : Char} : ∀ (rest candRev : List Char) (idx : Nat) (v : Json) (j : Nat),
    scanFrom close candRev idx rest = some (v, j) →
    ∃ k, k < rest.length ∧ j = idx + k ∧ rest[k]? = some close ∧
      jsonParse (candRev.reverse ++ rest.take (k + 1)) = some v ∧
      ∀ k' < k, rest[k']? = some close →
        jsonParse (candRev.reverse ++ rest.take (k' + 1)) = none := by
  intro rest
  induction rest with
  | nil =>
    intro candRev idx v j h
    exact absurd h (by simp [scanFrom])
  | cons c cs ih =>
    intro candRev idx v j h
    by_cases hcc : c = close
    · subst hcc
      rw [scanFrom, if_pos rfl] at h
      cases hjp : jsonParse ((c :: candRev)).reverse with
      | some v' =>
        rw [hjp] at h
        simp only [Option.some.injEq, Prod.mk.injEq] at h
        obtain ⟨rfl, rfl⟩ := h
        refine ⟨0, by simp, by omega, by simp, ?_, fun k' hk' _ => absurd hk' (by omega)⟩
        rw [List.take_succ_cons, List.take_zero]
        rw [List.reverse_cons] at hjp
        exact hjp
      | none =>
        rw [hjp] at h
        obtain ⟨k, hk1, hk2, hk3, hk4, hk5⟩ := ih (c :: candRev) (idx + 1) v j h
        refine ⟨k + 1, by simpa using hk1, by omega, by simpa using hk3, ?_, ?_⟩
        · rw [List.take_succ_cons]
          have : candRev.reverse ++ (c :: cs.take (k + 1)) =
              (c :: candRev).reverse ++ cs.take (k + 1) := by
            simp
          rw [this]
          exact hk4
        · intro k' hk' hidx
          cases k' with
          | zero =>
            rw [List.take_succ_cons, List.take_zero]
            have : candRev.reverse ++ [c] = (c :: candRev).reverse := by simp
            rw [this]
            exact hjp
          | succ k'' =>
            rw [List.take_succ_cons]
            have : candRev.reverse ++ (c :: cs.take (k'' + 1)) =
                (c :: candRev).reverse ++ cs.take (k'' + 1) := by
              simp
            rw [this]
            exact hk5 k'' (by omega) (by simpa using hidx)
    · rw [scanFrom, if_neg hcc] at h
      obtain ⟨k, hk1, hk2, hk3, hk4, hk5⟩ := ih (c :: candRev) (idx + 1) v j h
      refine ⟨k + 1, by simpa using hk1, by omega, by simpa using hk3, ?_, ?_⟩
      · rw [List.take_succ_cons]
        have : candRev.reverse ++ (c :: cs.take (k + 1)) =
            (c :: candRev).reverse ++ cs.take (k + 1) := by
          simp
        rw [this]
        exact hk4
      · intro k' hk' hidx
        cases k' with
        | zero =>
          simp only [List.getElem?_cons_zero, Option.some.injEq] at hidx
          exact absurd hidx hcc
        | succ k'' =>
          rw [List.take_succ_cons]
          have : candRev.reverse ++ (c :: cs.take (k'' + 1)) =
              (c :: candRev).reverse ++ cs.take (k'' + 1) := by
            simp
          rw [this]
          exact hk5 k'' (by omega) (by simpa using hidx)

theorem scanPair_sound {raw : List Char} {o close : Char} {v : Json} {j : Nat}
    (h : scanPair raw o close = some (v, j)) :
    ∃ s, firstIdx raw o = some s ∧ s < j ∧ raw[j]? = some close ∧
      jsonParse ((raw.drop s).take (j - s + 1)) = some v ∧
      ∀ k, s < k → k < j → raw[k]? = some close →
        jsonParse ((raw.drop s).take (k - s + 1)) = none := by
  unfold scanPair at h
  cases hfi : firstIdx raw o with
  | none => rw [hfi] at h; exact absurd h (by simp)
  | some s =>
    rw [hfi] at h
    obtain ⟨hslen, hsget, _⟩ := firstIdx_spec raw o s hfi
    obtain ⟨k, hk1, hk2, hk3, hk4, hk5⟩ := scanFrom_sound (raw.drop (s + 1)) [o] (s + 1) v j h
    have hdrop : raw.drop s = o :: raw.drop (s + 1) := by
      have := List.drop_eq_getElem_cons hslen
      rw [this]
      congr 1
      have : raw[s] = o := by
        have := hsget
        simp [List.getElem?_eq_getElem hslen] at this
        exact this
      exact this
    refine ⟨s, rfl, by omega, ?_, ?_, ?_⟩
    · rw [hk2]
      have : raw[s + 1 + k]? = (raw.drop (s + 1))[k]? := (List.getElem?_drop raw (s + 1) k).symm
      rw [this]
      exact hk3
    · rw [hdrop]
      have harith : j - s + 1 = (k + 1) + 1 := by omega
      rw [harith, List.take_succ_cons]
      simpa using hk4
    · intro m hm1 hm2 hmget
      have hk' : m - s - 1 < k := by omega
      have hget2 : (raw.drop (s + 1))[m - s - 1]? = some close := by
        rw [List.getElem?_drop]
        have : s + 1 + (m - s - 1) = m := by omega
        rw [this]
        exact hmget
      have := hk5 (m - s - 1) hk' hget2
      rw [hdrop]
      have harith : m - s + 1 = (m - s - 1 + 1) + 1 := by omega
      rw [harith, List.take_succ_cons]
      simpa using this

theorem safe_json_scan_square {raw : List Char} {v : Json} {j : Nat}
    (h1 : jsonParse (pyStrip raw) = none) (h2 : fenceScan (pyStrip raw) = none)
    (h3 : scanPair (pyStrip raw) '[' ']' = some (v, j)) :
    safe_json_from_model raw = Except.ok v := by
  unfold safe_json_from_model
  simp only [h1, h2, h3]

theorem safe_json_scan_brace {raw : List Char} {v : Json} {j : Nat}
    (h1 : jsonParse (pyStrip raw) = none) (h2 : fenceScan (pyStrip raw) = none)
    (h3 : scanPair (pyStrip raw) '[' ']' = none)
    (h4 : scanPair (pyStrip raw) lbraceChar rbraceChar = some (v, j)) :
    safe_json_from_model raw = Except.ok v := by
  unfold safe_json_from_model
  simp only [h1, h2, h3, h4]

theorem safe_json_all_fail {raw : List Char}
    (h1 : jsonParse (pyStrip raw) = none) (h2 : fenceScan (pyStrip raw) = none)
    (h3 : scanPair (pyStrip raw) '[' ']' = none)
    (h4 : scanPair (pyStrip raw) lbraceChar rbraceChar = none) :
    safe_json_from_model raw = Except.error "Could not extract JSON from model output.".data := by
  unfold safe_json_from_model
  simp only [h1, h2, h3, h4]

/-! ## The error path: inputs with no opening bracket -/

theorem splitTicksAux_subset_aux : ∀ (n : Nat) (l acc part : List Char), l.length ≤ n →
    part ∈ splitTicksAux l acc → ∀ c ∈ part, c ∈ l ∨ c ∈ acc := by
  intro n
  induction n with
  | zero =>
    intro l acc part hlen hmem c hc
    have hnil : l = [] := List.length_eq_zero.mp (by omega)
    subst hnil
    simp only [splitTicksAux, List.mem_singleton] at hmem
    subst hmem
    exact Or.inr (List.mem_reverse.mp hc)
  | succ n ih =>
    intro l acc part hlen hmem c hc
    match l with
    | [] =>
      simp only [splitTicksAux, List.mem_singleton] at hmem
      subst hmem
      exact Or.inr (List.mem_reverse.mp hc)
    | [c1] =>
      simp only [splitTicksAux, List.mem_singleton] at hmem
      subst hmem
      rw [List.mem_reverse] at hc
      rcases List.mem_cons.mp hc with he | hacc
      · exact Or.inl (he ▸ List.mem_singleton_self c1)
      · exact Or.inr hacc
    | [c1, c2] =>
      simp only [splitTicksAux, List.mem_singleton] at hmem
      subst hmem
      rw [List.mem_reverse] at hc
      rcases List.mem_cons.mp hc with he | hc2
      · exact Or.inl (he ▸ by simp)
      · rcases List.mem_cons.mp hc2 with he2 | hacc
        · exact Or.inl (he2 ▸ by simp)
        · exact Or.inr hacc
    | c1 :: c2 :: c3 :: cs =>
      by_cases hcond : (c1 = backtickChar && c2 = backtickChar && c3 = backtickChar) = true
      · rw [splitTicksAux, if_pos hcond] at hmem
        rcases List.mem_cons.mp hmem with he | hmem2
        · subst he
          exact Or.inr (List.mem_reverse.mp hc)
        · have hsub := ih cs [] part (by simp at hlen; omega) hmem2 c hc
          rcases hsub with hcs | hnil
          · exact Or.inl (by simp [hcs])
          · simp at hnil
      · rw [splitTicksAux, if_neg hcond] at hmem
        have hsub := ih (c2 :: c3 :: cs) (c1 :: acc) part (by simp at hlen ⊢; omega) hmem c hc
        rcases hsub with hcs | hacc
        · exact Or.inl (List.mem_cons_of_mem c1 hcs)
        · rcases List.mem_cons.mp hacc with he | hacc2
          · exact Or.inl (he ▸ List.mem_cons_self c1 _)
          · exact Or.inr hacc2

theorem splitTicks_subset {raw part : List Char} (hpart : part ∈ splitTicks raw) :
    ∀ c ∈ part, c ∈ raw := by
  intro c hc
  have := splitTicksAux_subset_aux raw.length raw [] part le_rfl hpart c hc
  simpa using this

theorem fenceParts_none : ∀ (parts : List (List Char)),
    (∀ part ∈ parts, ∀ c cand, pyStrip part = c :: cand → ¬(c = '[' ∨ c = lbraceChar)) →
    fenceParts parts = none := by
  intro parts
  induction parts with
  | nil => intro _; rfl
  | cons p ps ih =>
    intro h
    have htail : ∀ part ∈ ps, ∀ c cand, pyStrip part = c :: cand → ¬(c = '[' ∨ c = lbraceChar) :=
      fun part hm => h part (List.mem_cons_of_mem p hm)
    rw [fenceParts.eq_def]
    cases hps : pyStrip p with
    | nil =>
      simp only [hps]
      exact ih htail
    | cons c cand =>
      have hc := h p (List.mem_cons_self p ps) c cand hps
      have hcb : (decide (c = '[') || decide (c = lbraceChar)) = false := by
        simp only [Bool.or_eq_false_iff, decide_eq_false_iff_not]
        exact ⟨fun he => hc (Or.inl he), fun he => hc (Or.inr he)⟩
      simp only [hps, hcb, Bool.false_eq_true, if_false]
      exact ih htail

theorem fenceScan_none_of_no_open {raw : List Char} (h1 : '[' ∉ raw) (h2 : lbraceChar ∉ raw) :
    fenceScan raw = none := by
  unfold fenceScan
  by_cases hlen : (splitTicks raw).length = 1
  · rw [if_pos hlen]
  · rw [if_neg hlen]
    apply fenceParts_none
    intro part hpart c cand hps
    have hcmem : c ∈ part := pyStrip_mem (hps ▸ List.mem_cons_self c cand)
    have hcraw : c ∈ raw := splitTicks_subset hpart c hcmem
    rintro (rfl | rfl)
    · exact h1 hcraw
    · exact h2 hcraw

theorem scanPair_none_of_no_open {raw : List Char} {o close : Char} (h : o ∉ raw) :
    scanPair raw o close = none := by
  unfold scanPair
  rw [firstIdx_eq_none h]

theorem safe_json_no_brackets {s : List Char} (h1 : '[' ∉ s) (h2 : lbraceChar ∉ s)
    (h3 : jsonParse (pyStrip s) = none) :
    safe_json_from_model s = Except.error "Could not extract JSON from model output.".data := by
  have h1s : '[' ∉ pyStrip s := fun hm => h1 (pyStrip_mem hm)
  have h2s : lbraceChar ∉ pyStrip s := fun hm => h2 (pyStrip_mem hm)
  exact safe_json_all_fail h3 (fenceScan_none_of_no_open h1s h2s)
    (scanPair_none_of_no_open h1s) (scanPair_none_of_no_open h2s)

/-! ## Session-state helper lemmas -/

theorem lookup_append_right {l : List (String × Json)} {k : String} {v : Json}
    (h : l.lookup k = none) : (l ++ [(k, v)]).lookup k = some v := by
  induction l with
  | nil => simp [List.lookup]
  | cons a t ih =>
    obtain ⟨a1, a2⟩ := a
    by_cases hab : (k == a1) = true
    · simp [List.lookup, hab] at h
    · have hab2 : (k == a1) = false := by simpa using hab
      simp only [List.lookup, hab2] at h
      simp only [List.cons_append, List.lookup, hab2]
      exact ih h

/-! ## Claim theorems -/

/-- C1: the specification says `transcribe_audio` rejects audio under 0.5 seconds with an
"audio too short" error before any upload.  The code does raise that `ValueError`, but
inside the same `try` whose `except Exception` swallows every exception and sets the
duration to `None`, so a 0.25-second clip (4000 frames at 16000 Hz) proceeds to the
S3 upload; only the malformed-header half of the claim holds.  The guard never
produces the rejection outcome for any header. -/
theorem transcribe_audio_short_clip_proceeds :
    duration_check (some (4000, 16000)) =
      Except.error "ValueError: Audio too short. Please record at least 1-2 seconds." ∧
    transcribe_audio_guard (some (4000, 16000)) = TranscribeStep.uploading none ∧
    transcribe_audio_guard none = TranscribeStep.uploading none ∧
    ∀ (hdr : Option (Nat × Nat)) (msg : List Char),
      transcribe_audio_guard hdr ≠ TranscribeStep.abortedShort msg := by
  refine ⟨?_, ?_, rfl, ?_⟩
  · simp only [duration_check, get_wav_duration_seconds]
    norm_num
  · simp only [transcribe_audio_guard, duration_check, get_wav_duration_seconds]
    norm_num
  · intro hdr msg
    unfold transcribe_audio_guard
    cases duration_check hdr <;> simp

/-- C2: whenever the direct parse and the fence strategies both fail, the bracket scan
settles the result with the square pair tried before the curly pair: if the square scan
succeeds, the returned value is parsed from the shortest substring starting at the first
`[` (no earlier closing-bracket position yields a parse, since every position is tried
in increasing order); and if the square scan finds nothing while the curly scan
succeeds, the returned value is likewise parsed from the shortest substring starting at
the first opening brace. -/
theorem safe_json_bracket_scan_shortest (raw : List Char)
    (h1 : jsonParse (pyStrip raw) = none) (h2 : fenceScan (pyStrip raw) = none) :
    (∀ v j, scanPair (pyStrip raw) '[' ']' = some (v, j) →
      safe_json_from_model raw = Except.ok v ∧
        scanShortestSpec (pyStrip raw) '[' ']' v j) ∧
    (∀ v j, scanPair (pyStrip raw) '[' ']' = none →
      scanPair (pyStrip raw) lbraceChar rbraceChar = some (v, j) →
      safe_json_from_model raw = Except.ok v ∧
        scanShortestSpec (pyStrip raw) lbraceChar rbraceChar v j) := by
  constructor
  · intro v j h3
    refine ⟨safe_json_scan_square h1 h2 h3, ?_⟩
    unfold scanShortestSpec
    exact scanPair_sound h3
  · intro v j h3 h4
    refine ⟨safe_json_scan_brace h1 h2 h3 h4, ?_⟩
    unfold scanShortestSpec
    exact scanPair_sound h4

/-- C2 witness: on `roles: [1, 2] done` the square-bracket scan fires first and returns
the list `[1, 2]`, the shortest parse from the first `[` (close position 12); on
`prefix { "a": 1 } { "a": 1, "b": 2 } suffix` the square scan finds nothing and the
brace scan returns the first (shortest) object `{"a": 1}` at close position 16, not the
longer second object. -/
theorem safe_json_bracket_scan_shortest_witness :
    (safe_json_from_model "roles: [1, 2] done".data =
        Except.ok (Json.arr [Json.num 1, Json.num 2]) ∧
      scanShortestSpec (pyStrip "roles: [1, 2] done".data) '[' ']'
        (Json.arr [Json.num 1, Json.num 2]) 12) ∧
    (safe_json_from_model "prefix \x7b \"a\": 1 \x7d \x7b \"a\": 1, \"b\": 2 \x7d suffix".data =
        Except.ok (Json.obj [("a".data, Json.num 1)]) ∧
      scanShortestSpec
        (pyStrip "prefix \x7b \"a\": 1 \x7d \x7b \"a\": 1, \"b\": 2 \x7d suffix".data)
        lbraceChar rbraceChar (Json.obj [("a".data, Json.num 1)]) 16) :=
  ⟨(safe_json_bracket_scan_shortest "roles: [1, 2] done".data rfl rfl).1
      (Json.arr [Json.num 1, Json.num 2]) 12 rfl,
   (safe_json_bracket_scan_shortest
      "prefix \x7b \"a\": 1 \x7d \x7b \"a\": 1, \"b\": 2 \x7d suffix".data rfl rfl).2
      (Json.obj [("a".data, Json.num 1)]) 16 rfl rfl⟩

/-- C3: the voice pipeline constructs its Transcribe, Polly and S3 clients by reading
`AWS_REGION`, a name never bound anywhere in the module (only `REGION` and
`BEDROCK_REGION` are), so evaluating the client-construction block raises `NameError`
instead of producing usable clients. -/
theorem aws_region_undefined :
    "AWS_REGION" ∉ voice_pipeline_module_names ∧
    "REGION" ∈ voice_pipeline_module_names ∧
    "BEDROCK_REGION" ∈ voice_pipeline_module_names ∧
    voice_clients_init = Except.error "NameError: name AWS_REGION is not defined" :=
  ⟨by decide, by decide, by decide, rfl⟩

/-- C4: within a session a day-in-the-life simulation is generated at most once per
role name: a first visit (cache miss) invokes the generator and stores the result under
the role name; any visit that finds a stored simulation returns it unchanged, with the
same state and without invoking the generator; and the start-over action clears the
simulations map together with the role options and the selected role. -/
theorem ent_simulation_memoized (gen : String → String → Json) (st : EntState)
    (role_name fit_reason : String)
    (hfirst : st.ent_simulations.lookup role_name = none) :
    (ent_show_simulation_fetch gen st role_name fit_reason).2.2 = true ∧
    (ent_show_simulation_fetch gen st role_name fit_reason).2.1 = gen role_name fit_reason ∧
    ((ent_show_simulation_fetch gen st role_name fit_reason).1).ent_simulations.lookup
      role_name = some (gen role_name fit_reason) ∧
    (∀ (st' : EntState) (sim : Json), st'.ent_simulations.lookup role_name = some sim →
      ent_show_simulation_fetch gen st' role_name fit_reason = (st', sim, false)) ∧
    (∀ st' : EntState, (ent_start_over st').ent_simulations = [] ∧
      (ent_start_over st').ent_role_options = [] ∧
      (ent_start_over st').ent_selected_role = none ∧
      (ent_start_over st').ent_stage = "landing") := by
  refine ⟨?_, ?_, ?_, ?_, fun st' => ⟨rfl, rfl, rfl, rfl⟩⟩
  · simp only [ent_show_simulation_fetch, hfirst]
  · simp only [ent_show_simulation_fetch, hfirst]
  · simp only [ent_show_simulation_fetch, hfirst]
    exact lookup_append_right hfirst
  · intro st' sim h
    simp only [ent_show_simulation_fetch, h]

/-- C4 witness: starting from an empty session, the first visit for role "Producer"
stores the generated simulation and later visits return it without regeneration. -/
theorem ent_simulation_memoized_witness :
    ((⟨"roles", [], none, []⟩ : EntState).ent_simulations.lookup "Producer" = none) ∧
    ((ent_show_simulation_fetch (fun _ _ => Json.null) ⟨"roles", [], none, []⟩
        "Producer" "fits").2.2 = true ∧
     (ent_show_simulation_fetch (fun _ _ => Json.null) ⟨"roles", [], none, []⟩
        "Producer" "fits").2.1 = (fun (_ _ : String) => Json.null) "Producer" "fits" ∧
     ((ent_show_simulation_fetch (fun _ _ => Json.null) ⟨"roles", [], none, []⟩
        "Producer" "fits").1).ent_simulations.lookup "Producer" =
          some ((fun (_ _ : String) => Json.null) "Producer" "fits") ∧
     (∀ (st' : EntState) (sim : Json), st'.ent_simulations.lookup "Producer" = some sim →
       ent_show_simulation_fetch (fun _ _ => Json.null) st' "Producer" "fits" =
         (st', sim, false)) ∧
     (∀ st' : EntState, (ent_start_over st').ent_simulations = [] ∧
       (ent_start_over st').ent_role_options = [] ∧
       (ent_start_over st').ent_selected_role = none ∧
       (ent_start_over st').ent_stage = "landing")) :=
  ⟨rfl, ent_simulation_memoized (fun _ _ => Json.null) ⟨"roles", [], none, []⟩
    "Producer" "fits" rfl⟩

/-- C5: for any slider values in 0-10, the Identity Lab fallback returns exactly one
archetype, named by the chaos slider thresholds (at least 7: "Vibe Curator in
Progress"; at most 3: "Vision Architect in Progress"; otherwise "Emerging Creator"),
a non-empty environment summary whose extra sentence mentions teams when the
solo/team slider is at least 7 and quiet focus when it is at most 3, and two suggested
roles. -/
theorem call_identity_ai_fallback_spec (sl : IdentitySliders)
    (hc : 0 ≤ sl.chaos_structure ∧ sl.chaos_structure ≤ 10)
    (hs : 0 ≤ sl.solo_team ∧ sl.solo_team ≤ 10)
    (h3 : 0 ≤ sl.expression_observation ∧ sl.expression_observation ≤ 10)
    (h4 : 0 ≤ sl.logic_emotion ∧ sl.logic_emotion ≤ 10)
    (h5 : 0 ≤ sl.people_backstage ∧ sl.people_backstage ≤ 10)
    (h6 : 0 ≤ sl.bigpicture_detail ∧ sl.bigpicture_detail ≤ 10) :
    (call_identity_ai_fallback sl).spark_archetypes.length = 1 ∧
    ((call_identity_ai_fallback sl).spark_archetypes.map SparkArchetype.name) =
      [if sl.chaos_structure ≥ 7 then "Vibe Curator in Progress"
       else if sl.chaos_structure ≤ 3 then "Vision Architect in Progress"
       else "Emerging Creator"] ∧
    (call_identity_ai_fallback sl).creative_environment.summary ≠ "" ∧
    (sl.solo_team ≥ 7 →
      hasSub "team".data (call_identity_ai_fallback sl).creative_environment.summary.data =
        true) ∧
    (sl.solo_team ≤ 3 →
      hasSub "quietly".data (call_identity_ai_fallback sl).creative_environment.summary.data =
        true) ∧
    2 ≤ (call_identity_ai_fallback sl).suggested_roles.length := by
  simp only [call_identity_ai_fallback]
  split_ifs with hc1 hc2 hs1 hs2 hs3 hs4 hs5 hs6 <;>
    refine ⟨rfl, rfl, by decide, fun h => ?_, fun h => ?_, by decide⟩ <;>
    first
      | decide
      | (exact absurd h (by omega))

/-- C5 witness: sliders at chaos 8 and solo/team 8 give the "Vibe Curator in Progress"
archetype and a team-flavoured environment summary. -/
theorem call_identity_ai_fallback_spec_witness :
    ((call_identity_ai_fallback ⟨8, 8, 5, 5, 5, 5⟩).spark_archetypes.length = 1 ∧
     ((call_identity_ai_fallback ⟨8, 8, 5, 5, 5, 5⟩).spark_archetypes.map
        SparkArchetype.name) =
       [if (8 : Int) ≥ 7 then "Vibe Curator in Progress"
        else if (8 : Int) ≤ 3 then "Vision Architect in Progress"
        else "Emerging Creator"] ∧
     (call_identity_ai_fallback ⟨8, 8, 5, 5, 5, 5⟩).creative_environment.summary ≠ "" ∧
     ((8 : Int) ≥ 7 →
       hasSub "team".data
         (call_identity_ai_fallback ⟨8, 8, 5, 5, 5, 5⟩).creative_environment.summary.data =
           true) ∧
     ((8 : Int) ≤ 3 →
       hasSub "quietly".data
         (call_identity_ai_fallback ⟨8, 8, 5, 5, 5, 5⟩).creative_environment.summary.data =
           true) ∧
     2 ≤ (call_identity_ai_fallback ⟨8, 8, 5, 5, 5, 5⟩).suggested_roles.length) :=
  call_identity_ai_fallback_spec ⟨8, 8, 5, 5, 5, 5⟩ (by decide) (by decide) (by decide)
    (by decide) (by decide) (by decide)

/-- C6: whenever the role-option generation fails — the Bedrock call raised, JSON
recovery failed, the parse was not a list, or the list was empty —
`ent_generate_role_options_from_ai` returns the fixed fallback list, which has exactly
three entries, each carrying non-empty `role_name`, `one_sentence_hook` and
`why_it_fits_this_person` fields. -/
theorem role_options_fallback_spec (call_result : Option (List Char))
    (h : ∀ raw, call_result = some raw → ∀ xs,
      safe_json_from_model raw = Except.ok (Json.arr xs) → xs = []) :
    ent_generate_role_options_from_ai call_result = ent_fallback_roles ∧
    (∃ e1 e2 e3, ent_fallback_roles = Json.arr [e1, e2, e3]) ∧
    fallbackRolesOk = true := by
  refine ⟨?_, ⟨_, _, _, rfl⟩, rfl⟩
  cases call_result with
  | none => rfl
  | some raw =>
    cases hsafe : safe_json_from_model raw with
    | error e => simp only [ent_generate_role_options_from_ai, hsafe]
    | ok j =>
      cases j with
      | arr xs =>
        cases xs with
        | nil => simp only [ent_generate_role_options_from_ai, hsafe]
        | cons x xs' => exact absurd (h raw rfl (x :: xs') hsafe) (by simp)
      | null => simp only [ent_generate_role_options_from_ai, hsafe]
      | bool b => simp only [ent_generate_role_options_from_ai, hsafe]
      | num n => simp only [ent_generate_role_options_from_ai, hsafe]
      | str s => simp only [ent_generate_role_options_from_ai, hsafe]
      | obj ms => simp only [ent_generate_role_options_from_ai, hsafe]

/-- C6 witness: when the model call itself raises (no reply at all), the fallback list
with its three fully populated entries is returned. -/
theorem role_options_fallback_spec_witness :
    ent_generate_role_options_from_ai none = ent_fallback_roles ∧
    (∃ e1 e2 e3, ent_fallback_roles = Json.arr [e1, e2, e3]) ∧
    fallbackRolesOk = true :=
  role_options_fallback_spec none (fun raw hraw => nomatch hraw)

/-- C7 (amended): `safe_json_from_model` returns a bare serialised JSON value unchanged
(strategy 1); returns a fenced container payload unchanged (strategy 2); recovers a flat
object from surrounding prose (strategy 3, concrete example); and raises the extraction
error on every input that contains no opening bracket and does not itself parse as JSON.
The original claim's universal error clause fails on bracket-free valid JSON such as
`42`, and prose-wrapped recovery returns the shortest bracketed value, not always the
whole payload (see the counterexample). -/
theorem safe_json_recovery_spec (v : Json) (s : List Char)
    (hv : cleanJson v = true) (hcont : isContainer v = true)
    (hs1 : '[' ∉ s) (hs2 : lbraceChar ∉ s)
    (hs3 : jsonParse (pyStrip s) = none) :
    safe_json_from_model (dumps v) = Except.ok v ∧
    safe_json_from_model (tickWrap (dumps v)) = Except.ok v ∧
    safe_json_from_model "Here is your JSON: \x7b\"a\": 1\x7d hope it helps".data =
      Except.ok (Json.obj [("a".data, Json.num 1)]) ∧
    safe_json_from_model s = Except.error "Could not extract JSON from model output.".data :=
  ⟨safe_json_bare hv, safe_json_fence hv hcont, rfl, safe_json_no_brackets hs1 hs2 hs3⟩

/-- C7 counterexample: the input `42` contains no `[` or `{` yet is returned as the
number 42 rather than raising the extraction error; and the prose-wrapped object
`{"a": [1]}` is recovered as the inner list `[1]` (the square-bracket pair is scanned
first), not as the object itself. -/
theorem safe_json_recovery_cex :
    safe_json_from_model "42".data = Except.ok (Json.num 42) ∧
    safe_json_from_model "see: \x7b\"a\": [1]\x7d ok".data = Except.ok (Json.arr [Json.num 1]) ∧
    Json.arr [Json.num 1] ≠ Json.obj [("a".data, Json.num 1)] :=
  ⟨rfl, rfl, fun h => Json.noConfusion h⟩

/-- C7 witness: the object `{"a": 1}` survives bare and fenced round trips, and the
bracket-free prose `no structured reply` raises the extraction error. -/
theorem safe_json_recovery_spec_witness :
    cleanJson (Json.obj [("a".data, Json.num 1)]) = true ∧
    (safe_json_from_model (dumps (Json.obj [("a".data, Json.num 1)])) =
      Except.ok (Json.obj [("a".data, Json.num 1)]) ∧
    safe_json_from_model (tickWrap (dumps (Json.obj [("a".data, Json.num 1)]))) =
      Except.ok (Json.obj [("a".data, Json.num 1)]) ∧
    safe_json_from_model "Here is your JSON: \x7b\"a\": 1\x7d hope it helps".data =
      Except.ok (Json.obj [("a".data, Json.num 1)]) ∧
    safe_json_from_model "no structured reply".data =
      Except.error "Could not extract JSON from model output.".data) :=
  ⟨rfl, safe_json_recovery_spec (Json.obj [("a".data, Json.num 1)])
    "no structured reply".data rfl rfl (by decide) (by decide) rfl⟩

/-- C8 counterexample: a fully empty Confidence Lab submission does warn and does not
call the model, but it is not state-neutral: `confidence_raw` is overwritten with the
empty submission record before the validation check runs, so the session state changes. -/
theorem confidence_empty_submission_cex :
    ((spark_confidence_submit (fun _ => Json.null) ⟨none, none⟩ "" [] "").1).confidence_raw =
      some ⟨[], [], none⟩ ∧
    (⟨none, none⟩ : SparkConfState).confidence_raw = none ∧
    ((spark_confidence_submit (fun _ => Json.null) ⟨none, none⟩ "" [] "").1).confidence_raw ≠
      (⟨none, none⟩ : SparkConfState).confidence_raw ∧
    (spark_confidence_submit (fun _ => Json.null) ⟨none, none⟩ "" [] "").2.1 = true :=
  ⟨rfl, rfl, by decide, rfl⟩

/-- C8 (amended): submitting the Confidence Lab with an empty weakness list, no
barriers and a blank extra barrier shows the validation warning, never invokes
`call_confidence_ai`, and leaves `confidence_result` unchanged — but `confidence_raw`
is overwritten with the empty submission record, so the session state is not entirely
untouched. -/
theorem confidence_empty_submission_spec (ai : ConfRaw → Json) (st : SparkConfState)
    (wt : String) (bs : List String) (eb : String)
    (hw : weaknessList wt = []) (hb : bs = []) (he : pyStripStr eb = "") :
    (spark_confidence_submit ai st wt bs eb).2.1 = true ∧
    (spark_confidence_submit ai st wt bs eb).2.2 = false ∧
    ((spark_confidence_submit ai st wt bs eb).1).confidence_result = st.confidence_result ∧
    ((spark_confidence_submit ai st wt bs eb).1).confidence_raw =
      some ⟨[], [], none⟩ := by
  subst hb
  refine ⟨?_, ?_, ?_, ?_⟩ <;> simp [spark_confidence_submit, hw, he]

/-- C8 witness: a whitespace-only submission on a session that already holds results
warns, skips the model, and preserves `confidence_result`. -/
theorem confidence_empty_submission_spec_witness :
    weaknessList " \n " = [] ∧ pyStripStr " " = "" ∧
    ((spark_confidence_submit (fun _ => Json.null)
        ⟨some ⟨["x"], [], none⟩, some Json.null⟩ " \n " [] " ").2.1 = true ∧
     (spark_confidence_submit (fun _ => Json.null)
        ⟨some ⟨["x"], [], none⟩, some Json.null⟩ " \n " [] " ").2.2 = false ∧
     ((spark_confidence_submit (fun _ => Json.null)
        ⟨some ⟨["x"], [], none⟩, some Json.null⟩ " \n " [] " ").1).confidence_result =
       (⟨some ⟨["x"], [], none⟩, some Json.null⟩ : SparkConfState).confidence_result ∧
     ((spark_confidence_submit (fun _ => Json.null)
        ⟨some ⟨["x"], [], none⟩, some Json.null⟩ " \n " [] " ").1).confidence_raw =
       some ⟨[], [], none⟩) :=
  ⟨by decide, by decide, confidence_empty_submission_spec (fun _ => Json.null)
    ⟨some ⟨["x"], [], none⟩, some Json.null⟩ " \n " [] " " (by decide) rfl (by decide)⟩

/-- C9: `call_master_agent` never returns an empty reply: empty input text
short-circuits to the fixed repetition prompt without invoking the remote agent, and a
stream whose concatenated chunks strip to nothing yields the fixed apology instead of
an empty string. -/
theorem call_master_agent_nonempty (text : List Char) (events : List AgentEvent) :
    (call_master_agent text events).1 ≠ [] ∧
    (text = [] → call_master_agent text events =
      ("I didn\x27t catch that. Could you please repeat your answer?".data, false)) ∧
    (text ≠ [] → pyStrip (concatChunks events) = [] →
      call_master_agent text events =
        ("Sorry, I couldn\x27t generate a reply this time.".data, true)) := by
  refine ⟨?_, ?_, ?_⟩
  · by_cases ht : text = []
    · simp only [call_master_agent, if_pos ht]
      decide
    · by_cases hstrip : pyStrip (concatChunks events) = []
      · simp only [call_master_agent, if_neg ht, hstrip, if_pos]
        decide
      · simp only [call_master_agent, if_neg ht, if_neg hstrip]
        exact hstrip
  · intro ht
    simp only [call_master_agent, if_pos ht]
  · intro ht hstrip
    simp only [call_master_agent, if_neg ht, hstrip, if_pos]

/-- C9 witness: empty input returns the repetition prompt without a remote call, and a
whitespace-only stream for non-empty input returns the apology after the remote call. -/
theorem call_master_agent_nonempty_witness :
    call_master_agent [] [AgentEvent.noChunk] =
      ("I didn\x27t catch that. Could you please repeat your answer?".data, false) ∧
    call_master_agent "hi".data [AgentEvent.chunkBytes "  ".data] =
      ("Sorry, I couldn\x27t generate a reply this time.".data, true) :=
  ⟨(call_master_agent_nonempty [] [AgentEvent.noChunk]).2.1 rfl,
   (call_master_agent_nonempty "hi".data [AgentEvent.chunkBytes "  ".data]).2.2
     (by decide) rfl⟩

/-- C10: any input whose stripped text parses as JSON — of any kind, scalars included —
is returned by the direct-parse strategy of `safe_json_from_model`, not rejected. -/
theorem safe_json_direct_scalar (s : List Char) (v : Json)
    (h : jsonParse (pyStrip s) = some v) :
    safe_json_from_model s = Except.ok v :=
  safe_json_direct h

/-- C10 witness: the bare number `42` parses directly and is returned as the number 42. -/
theorem safe_json_direct_scalar_witness :
    jsonParse (pyStrip "42".data) = some (Json.num 42) ∧
    safe_json_from_model "42".data = Except.ok (Json.num 42) :=
  ⟨rfl, safe_json_direct_scalar "42".data (Json.num 42) rfl⟩
